import Mathlib

/-!
Verification of `dynamodb_autoincrement.py`: a shallow embedding of the
plain and history auto-increment planners, the transactional committer
(`BaseDynamoDBAutoIncrement.put`), and the history `list`/`get` helpers,
together with theorems checking the specification's claims.

Modelling choices:
* DynamoDB items are Python dicts whose values we model with `DDBValue`
  (null / bool / int / string); `Item` is an association list with Python
  dict semantics — `Item.get` returns the first binding, `Item.setAttr`
  models `d[k] = v` (update in place, else append), and dict literals /
  `{**a, **b}` splats are folds of `setAttr`.
* The backing store is a family of tables, each a list of items together
  with a key schema (the list of key attribute names).  `get_item`,
  `put_item`, conditional checks and `transact_write_items` are given
  their DynamoDB semantics over this state: an item is addressed by the
  values of its key attributes, a conditional write checks its condition
  against the previously stored item at the written item's key, and a
  transaction applies all writes iff every condition holds against the
  store at the start of the transaction.
* `boto3` deserialises a DynamoDB `NULL` attribute to Python `None`, so a
  stored null is indistinguishable from an absent attribute for the
  planners' `.get(...) is None` tests; `Item.pyGet` models this.
* Python integers are `Int`; a `counter + 1` on a non-numeric stored
  counter raises `TypeError`, so the planners return `Option` results.
-/

inductive DDBValue where
  | null
  | bool (b : Bool)
  | int (n : Int)
  | str (s : String)
deriving DecidableEq, Repr

/-- Python `bool` is an `int` subclass, so `counter + 1` succeeds on
booleans (`True + 1 == 2`); on strings and `None` it raises `TypeError`.
`asPyNumber` returns the numeric value Python arithmetic would use. -/
def DDBValue.asPyNumber : DDBValue → Option Int
  | .int n => some n
  | .bool b => some (if b then 1 else 0)
  | _ => none

/-- An item (a Python dict), as an association list of attribute bindings. -/
abbrev Item := List (String × DDBValue)

/-- Python dict lookup: the binding for `k` (first occurrence wins; lists
built by `setAttr` never hold duplicate keys). -/
def Item.get : Item → String → Option DDBValue
  | [], _ => none
  | (a, v) :: rest, k => if k = a then some v else Item.get rest k

/-- Python `d[k] = v`: replace the binding in place if the key is present,
otherwise append it. -/
def Item.setAttr : Item → String → DDBValue → Item
  | [], k, v => [(k, v)]
  | (a, w) :: rest, k, v =>
    if k = a then (a, v) :: rest else (a, w) :: Item.setAttr rest k v

/-- Python `{**base, **extra}` (and any sequence of dict-literal entries):
fold the bindings of `extra` into `base`, later bindings overriding. -/
def Item.mergeWith (base : Item) (extra : Item) : Item :=
  extra.foldl (fun m kv => m.setAttr kv.1 kv.2) base

/-- Python `dict(...)` built by splatting a single dict into a literal. -/
def Item.norm (it : Item) : Item := Item.mergeWith [] it

/-- Python `d.get(k)`: `boto3` deserialises DynamoDB `NULL` to `None`, so a
stored null attribute reads back as Python `None`, exactly like a missing
attribute. -/
def Item.pyGet (it : Item) (k : String) : Option DDBValue :=
  match Item.get it k with
  | some .null => none
  | r => r

/-- Well-formed item: no duplicate attribute names. -/
abbrev Item.Wf (it : Item) : Prop := it.Pairwise (fun a b => a.1 ≠ b.1)

/-! ## The backing store

A DynamoDB-style key-value store: a family of tables addressed by name,
each a list of items, together with a key schema assigning each table its
list of key attribute names.  An item is addressed by the values of its
key attributes; `get_item` returns the (unique) stored item agreeing with
the supplied key on every key attribute. -/

/-- Tables of the store, by table name. -/
abbrev Store := String → List Item

/-- Key schema: the key attribute names of each table. -/
abbrev Schema := String → List String

/-- Two items address the same record of table `t` iff they agree on every
key attribute of `t`. -/
def sameKey (ks : List String) (a b : Item) : Bool :=
  ks.all (fun k => decide (Item.get a k = Item.get b k))

/-- DynamoDB `get_item`: the stored item at the given key, if any. -/
def Store.getItem (schema : Schema) (s : Store) (t : String) (key : Item) :
    Option Item :=
  (s t).find? (fun it => sameKey (schema t) it key)

/-- DynamoDB `put_item` without a condition: replace the record at the new
item's key (if any) with the new item. -/
def Store.putItem (schema : Schema) (s : Store) (t : String) (newIt : Item) :
    Store :=
  fun n =>
    if n = t then
      newIt :: (s t).filter (fun old => !(sameKey (schema t) old newIt))
    else s n

/-- The two condition expressions the library uses:
`attribute_not_exists(#counter)` and `#counter = :counter`. -/
inductive Cond where
  | attrNotExists (a : String)
  | attrEq (a : String) (v : DDBValue)
deriving DecidableEq

/-- DynamoDB evaluation of a condition expression against the previously
stored item (absent or present) at the written item's key: on an absent
item `attribute_not_exists` holds and an equality comparison fails. -/
def Cond.holds (existing : Option Item) : Cond → Bool
  | .attrNotExists a =>
    match existing with
    | none => true
    | some it => (Item.get it a).isNone
  | .attrEq a v =>
    match existing with
    | none => false
    | some it => decide (Item.get it a = some v)

/-- One entry of the `puts` list returned by a planner's `next`: the
`TableName`, the `Item`, and the `ConditionExpression` (with its
`ExpressionAttributeNames`/`Values` resolved). -/
structure PlannedPut where
  table : String
  item : Item
  cond : Cond
deriving DecidableEq

/-- Whether a planned put's condition holds against the current store. -/
def condOk (schema : Schema) (s : Store) (p : PlannedPut) : Bool :=
  Cond.holds (Store.getItem schema s p.table p.item) p.cond

/-- DynamoDB `transact_write_items` over `Put` entries: if every condition
holds against the store at the start of the transaction, all writes are
applied atomically; otherwise the transaction is cancelled and the store
is unchanged (`none`). -/
def transact_write_items (schema : Schema) (s : Store)
    (ps : List PlannedPut) : Option Store :=
  if ps.all (condOk schema s) then
    some (ps.foldl (fun st p => Store.putItem schema st p.table p.item) s)
  else none

/-! ## The library: `dynamodb_autoincrement.py`

`BaseDynamoDBAutoIncrement` is the frozen dataclass of the source (the
`dynamodb` client handle is replaced by the explicit `Store`/`Schema`
arguments of each operation).  The two subclasses' `next` planners are
embedded as functions from the configuration, the schema and the current
store to the planned `puts` and the next counter value; a `TypeError`
raised by `counter + 1` on a non-numeric stored counter is `none`. -/

structure BaseDynamoDBAutoIncrement where
  counter_table_name : String
  counter_table_key : Item
  attribute_name : String
  table_name : String
  initial_value : Int
  dangerously : Bool := false

/-- The read both planners perform first: the full record stored at the
counter-table key (`existing_item` in the history planner). -/
def tipRead (self : BaseDynamoDBAutoIncrement) (schema : Schema) (s : Store) :
    Option Item :=
  Store.getItem schema s self.counter_table_name self.counter_table_key

/-- The Python value of the counter attribute of the counter record, as
the planners see it: `None` when the record is absent, the attribute is
absent, or the attribute is a DynamoDB `NULL`. -/
def counterPy (self : BaseDynamoDBAutoIncrement) (schema : Schema)
    (s : Store) : Option DDBValue :=
  match tipRead self schema s with
  | none => none
  | some it => Item.pyGet it self.attribute_name

/-- The common branch of both planners: from the Python value found for
the counter attribute (`none` models Python `None`), the next counter
value and the `ConditionExpression` of the counter-table write, per
lines 76-86 and 155-165 of the source.  Returns `none` on the
`TypeError` Python would raise for `counter + 1` on a non-numeric
counter. -/
def nextAndCond (self : BaseDynamoDBAutoIncrement) (counter : Option DDBValue) :
    Option (Int × Cond) :=
  match counter with
  | none => some (self.initial_value, Cond.attrNotExists self.attribute_name)
  | some v =>
    (v.asPyNumber).map (fun c => (c + 1, Cond.attrEq self.attribute_name v))

/-- `DynamoDBAutoIncrement.next`: read the counter attribute of the counter
record; compute `next_counter` and the counter-table condition; return the
two planned puts — the counter-table write `{**counter_table_key,
attribute_name: next_counter}` and the target-table write
`{attribute_name: next_counter, **item}` conditioned on
`attribute_not_exists(#counter)` — together with `next_counter`. -/
def DynamoDBAutoIncrement.next (self : BaseDynamoDBAutoIncrement)
    (schema : Schema) (s : Store) (item : Item) :
    Option (List PlannedPut × Int) :=
  (nextAndCond self (counterPy self schema s)).map (fun nc =>
    ([{ table := self.counter_table_name,
        item := Item.setAttr (Item.norm self.counter_table_key)
          self.attribute_name (DDBValue.int nc.1),
        cond := nc.2 },
      { table := self.table_name,
        item := Item.mergeWith [(self.attribute_name, DDBValue.int nc.1)] item,
        cond := Cond.attrNotExists self.attribute_name }],
     nc.1))

/-- `DynamoDBHistoryAutoIncrement.next`: read the full tip record at the
counter-table key; branch on its counter attribute exactly as the source
does (lines 145-198), including the pre-versioning shim that mutates the
existing tip with `existing_item[attribute_name] = next_counter` and then
bumps `next_counter` again; return the tip write `{**item,
**counter_table_key, attribute_name: next_counter}` followed, when a tip
existed, by the archive write of the (possibly mutated) prior tip into the
history table conditioned on `attribute_not_exists(#counter)`. -/
def DynamoDBHistoryAutoIncrement.next (self : BaseDynamoDBAutoIncrement)
    (schema : Schema) (s : Store) (item : Item) :
    Option (List PlannedPut × Int) :=
  let existing_item : Option Item := tipRead self schema s
  (nextAndCond self (counterPy self schema s)).map (fun nc =>
    let shim : Option Item × Int :=
      match existing_item, counterPy self schema s with
      | some ex, none =>
        (some (Item.setAttr ex self.attribute_name (DDBValue.int nc.1)),
         nc.1 + 1)
      | ex, _ => (ex, nc.1)
    let next_counter := shim.2
    let tip : PlannedPut :=
      { table := self.counter_table_name,
        item := Item.setAttr
          (Item.mergeWith (Item.norm item) self.counter_table_key)
          self.attribute_name (DDBValue.int next_counter),
        cond := nc.2 }
    let puts : List PlannedPut :=
      match shim.1 with
      | none => [tip]
      | some ex =>
        [tip, { table := self.table_name, item := ex,
                cond := Cond.attrNotExists self.attribute_name }]
    (puts, next_counter))

/-- The `KeyConditionExpression` of `DynamoDBHistoryAutoIncrement.list`:
the record agrees with `counter_table_key` on every parent key attribute. -/
def parentMatches (self : BaseDynamoDBAutoIncrement) (it : Item) : Bool :=
  self.counter_table_key.all (fun kv => decide (Item.get it kv.1 = some kv.2))

/-- The `item[self.attribute_name]` projection of
`DynamoDBHistoryAutoIncrement.list`: the version number of a history
record (`none` models the `KeyError`/`TypeError` Python would raise on a
record without a numeric counter attribute). -/
def versionOf (self : BaseDynamoDBAutoIncrement) (it : Item) : Option Int :=
  match Item.get it self.attribute_name with
  | some (DDBValue.int n) => some n
  | _ => none

/-- Whether an item carries an integer under the given attribute. -/
def isIntAttr (it : Item) (a : String) : Bool :=
  match Item.get it a with
  | some (DDBValue.int _) => true
  | _ => false

/-- `DynamoDBHistoryAutoIncrement.list`: query the history table for all
records whose key attributes of the parent (`counter_table_key`) match,
project out the counter attribute, and sort the version numbers
ascending. -/
def DynamoDBHistoryAutoIncrement.list (self : BaseDynamoDBAutoIncrement)
    (s : Store) : Option (List Int) :=
  (((s self.table_name).filter (parentMatches self)).mapM
    (versionOf self)).map (List.insertionSort (· ≤ ·))

/-- `DynamoDBHistoryAutoIncrement.get`: with no version, read the current
tip at the counter-table key; with a version, read the history table at
`{**counter_table_key, attribute_name: version}`. -/
def DynamoDBHistoryAutoIncrement.get (self : BaseDynamoDBAutoIncrement)
    (schema : Schema) (s : Store) (version : Option Int) : Option Item :=
  match version with
  | none =>
    Store.getItem schema s self.counter_table_name self.counter_table_key
  | some v =>
    Store.getItem schema s self.table_name
      (Item.setAttr (Item.norm self.counter_table_key)
        self.attribute_name (DDBValue.int v))

/-! ## The committer: `BaseDynamoDBAutoIncrement.put`

The safe branch of `put` loops: call `next`, attempt
`transact_write_items`, and on `TransactionCanceledException` (here: a
condition of the batch no longer held) restart from the read; any other
store error propagates.  Concurrent writers and injected store failures
are modelled by the *script*: attempt `k` of the loop runs against the
`k`-th store state, and an attempt may carry an injected non-conflict
store error (`some e`) that the `transact_write_items` call raises
instead of returning.  An exhausted script is a loop still running
(`stillRetrying`), matching the unbounded retry of the source. -/

/-- Result of a `put` call under a finite script of attempts. -/
inductive PutOutcome where
  | done (s : Store) (v : Int)
  | fatal (e : String)
  | stillRetrying

/-- The value returned by a finished `put`, if it finished. -/
def PutOutcome.value : PutOutcome → Option Int
  | .done _ v => some v
  | _ => none

/-- The store left by a finished `put`, if it finished. -/
def PutOutcome.finalStore : PutOutcome → Option Store
  | .done s _ => some s
  | _ => none

/-- The error a `put` raised, if any. -/
def PutOutcome.raised : PutOutcome → Option String
  | .fatal e => some e
  | _ => none

/-- The safe-mode branch of `BaseDynamoDBAutoIncrement.put` (lines 47-61):
`while True: puts, next_counter = self.next(item); try:
transact_write_items(...) except TransactionCanceledException: continue;
return next_counter`.  `nextFn` is the subclass's `next` bound to the
schema (strategy selected at construction time). -/
def BaseDynamoDBAutoIncrement.put
    (nextFn : Store → Item → Option (List PlannedPut × Int))
    (schema : Schema) (item : Item) :
    List (Store × Option String) → PutOutcome
  | [] => .stillRetrying
  | (s, inj) :: rest =>
    match nextFn s item with
    | none => .fatal "TypeError"
    | some (puts, next_counter) =>
      match inj with
      | some e => .fatal e
      | none =>
        match transact_write_items schema s puts with
        | some s2 => .done s2 next_counter
        | none => BaseDynamoDBAutoIncrement.put nextFn schema item rest

/-- A single `put_item` call carrying the planned `ConditionExpression`
(this is what `_put_item(**put)` forwards to `Table.put_item`): the write
is applied only if its condition holds, otherwise the store raises
`ConditionalCheckFailedException`. -/
def put_item_conditional (schema : Schema) (s : Store) (p : PlannedPut) :
    Option Store :=
  if condOk schema s p then some (Store.putItem schema s p.table p.item)
  else none

/-- The `for put in puts: self._put_item(**put)` loop of the dangerous
branch: writes are applied one at a time; the first failed condition
raises, keeping the writes already applied (no rollback). -/
def putDangerousLoop (schema : Schema) :
    Store → List PlannedPut → Store × Option String
  | s, [] => (s, none)
  | s, p :: rest =>
    match put_item_conditional schema s p with
    | some s2 => putDangerousLoop schema s2 rest
    | none => (s, some "ConditionalCheckFailedException")

/-- The dangerous-mode branch of `BaseDynamoDBAutoIncrement.put` (lines
49-51): no transaction, each planned put issued independently through
`Table.put_item` with its `ConditionExpression` still attached; returns
the store actually reached and either the assigned value or the raised
error. -/
def BaseDynamoDBAutoIncrement.putDangerous
    (nextFn : Store → Item → Option (List PlannedPut × Int))
    (schema : Schema) (s : Store) (item : Item) :
    Store × Except String Int :=
  match nextFn s item with
  | none => (s, .error "TypeError")
  | some (puts, next_counter) =>
    match putDangerousLoop schema s puts with
    | (s2, none) => (s2, .ok next_counter)
    | (s2, some e) => (s2, .error e)

/-- Modelled from the spec: the low-safety mode as claim C7 describes it —
"issues each planned write as an independent, unconditioned put" — i.e.
every planned put is applied with its condition stripped, so no
conditional failure can occur.  This definition follows the claim's
words, for comparison with the code's `putDangerous` above. -/
def specPutDangerousUnconditioned
    (nextFn : Store → Item → Option (List PlannedPut × Int))
    (schema : Schema) (s : Store) (item : Item) :
    Store × Except String Int :=
  match nextFn s item with
  | none => (s, .error "TypeError")
  | some (puts, next_counter) =>
    (puts.foldl (fun st p => Store.putItem schema st p.table p.item) s,
     .ok next_counter)

/-! ## Configuration well-formedness and concrete test fixtures

The table identities are external configuration: the claims concern
deployments in which the counter table is keyed by exactly the attributes
of `counter_table_key`, the plain target table by `attribute_name`, the
history table by the parent key attributes followed by `attribute_name`,
and the counter and target/history tables are distinct — exactly the
layout of the repository's test fixtures. -/

/-- Attribute names of an item. -/
def Item.attrNames (it : Item) : List String := it.map Prod.fst

/-- Well-formed plain-counter deployment. -/
abbrev PlainCfgWf (self : BaseDynamoDBAutoIncrement) (schema : Schema) : Prop :=
  Item.Wf self.counter_table_key ∧
  schema self.counter_table_name = Item.attrNames self.counter_table_key ∧
  schema self.table_name = [self.attribute_name] ∧
  self.attribute_name ∉ Item.attrNames self.counter_table_key ∧
  self.counter_table_name ≠ self.table_name

/-- Well-formed history-counter deployment. -/
abbrev HistoryCfgWf (self : BaseDynamoDBAutoIncrement) (schema : Schema) : Prop :=
  Item.Wf self.counter_table_key ∧
  schema self.counter_table_name = Item.attrNames self.counter_table_key ∧
  schema self.table_name =
    Item.attrNames self.counter_table_key ++ [self.attribute_name] ∧
  self.attribute_name ∉ Item.attrNames self.counter_table_key ∧
  self.counter_table_name ≠ self.table_name

/-- The table layout of the repository's test suite. -/
def testSchema : Schema := fun t =>
  if t = "autoincrement" then ["tableName"]
  else if t = "widgets" then ["widgetID"]
  else if t = "widgetHistory" then ["widgetID", "version"]
  else []

/-- The `autoincrement_safely` fixture of the test suite. -/
def widgetsCfg : BaseDynamoDBAutoIncrement :=
  { counter_table_name := "autoincrement"
    counter_table_key := [("tableName", DDBValue.str "widgets")]
    attribute_name := "widgetID"
    table_name := "widgets"
    initial_value := 1 }

/-- The `autoincrement_dangerously` fixture of the test suite. -/
def widgetsCfgDangerous : BaseDynamoDBAutoIncrement :=
  { widgetsCfg with dangerously := true }

/-- The `autoincrement_version` (history) fixture of the test suite. -/
def versionsCfg : BaseDynamoDBAutoIncrement :=
  { counter_table_name := "widgets"
    counter_table_key := [("widgetID", DDBValue.int 1)]
    attribute_name := "version"
    table_name := "widgetHistory"
    initial_value := 1 }

/-- A fresh store: every table empty. -/
def freshStore : Store := fun _ => []

/-- A store whose `widgets` table already holds a record at `widgetID = 1`
(used to exhibit a conditional failure of the dangerous mode). -/
def occupiedTargetStore : Store := fun t =>
  if t = "widgets" then [[("widgetID", DDBValue.int 1), ("note", DDBValue.str "old")]]
  else []

/-- A store holding a pre-versioning tip `{widgetID: 1}` and an empty
history table (the migration scenario of the spec). -/
def preVersioningStore : Store := fun t =>
  if t = "widgets" then [[("widgetID", DDBValue.int 1)]] else []

/-- Modelled from the spec (claim C6's words): "the record ... contains
exactly the fields of c merged with the attribute name mapped to v" — the
candidate with the counter attribute set to the assigned value. -/
def specMergedRecord (c : Item) (attr : String) (v : Int) : Item :=
  Item.setAttr c attr (DDBValue.int v)

/-! ## Helper lemmas about keys, reads and writes -/

/-- The plan the plain planner produces against a fresh store with the
test fixture configuration (used as a concrete instantiation below). -/
def freshPlanPuts : List PlannedPut :=
  [{ table := "autoincrement",
     item := [("tableName", DDBValue.str "widgets"), ("widgetID", DDBValue.int 1)],
     cond := Cond.attrNotExists "widgetID" },
   { table := "widgets",
     item := [("widgetID", DDBValue.int 1)],
     cond := Cond.attrNotExists "widgetID" }]

/-- A store whose counter table already holds the counter value 3 for the
`widgets` target (scenario of the spec and test suite). -/
def counter3Store : Store := fun t =>
  if t = "autoincrement" then
    [[("tableName", DDBValue.str "widgets"), ("widgetID", DDBValue.int 3)]]
  else []

/-- The plan of the plain planner for candidate
`{widgetName: "runcible spoon"}` against a fresh store at the test
fixture. -/
def plainSpoonPlan : List PlannedPut :=
  [{ table := "autoincrement",
     item := [("tableName", DDBValue.str "widgets"),
              ("widgetID", DDBValue.int 1)],
     cond := Cond.attrNotExists "widgetID" },
   { table := "widgets",
     item := [("widgetID", DDBValue.int 1),
              ("widgetName", DDBValue.str "runcible spoon")],
     cond := Cond.attrNotExists "widgetID" }]

/-- The store left by committing `plainSpoonPlan` against a fresh store. -/
def plainSpoonStore : Store :=
  List.foldl (fun st p => Store.putItem testSchema st p.table p.item)
    freshStore plainSpoonPlan

/-- The plan of the history planner for candidate `{name: "x"}` against
the pre-versioning store at the test fixture. -/
def histPrePlan : List PlannedPut :=
  [{ table := "widgets",
     item := [("name", DDBValue.str "x"), ("widgetID", DDBValue.int 1),
              ("version", DDBValue.int 2)],
     cond := Cond.attrNotExists "version" },
   { table := "widgetHistory",
     item := [("widgetID", DDBValue.int 1), ("version", DDBValue.int 1)],
     cond := Cond.attrNotExists "version" }]

/-- The store left by committing `histPrePlan` against the pre-versioning
store. -/
def histPreStore : Store :=
  List.foldl (fun st p => Store.putItem testSchema st p.table p.item)
    preVersioningStore histPrePlan

/-! ## Concurrent executions of the safe-mode `put` (claim C1)

N callers run `put` concurrently against one plain counter.  Each caller
repeatedly (1) reads the store and plans (`next`), then (2) attempts the
planned transaction, which the store serialises: it either commits
atomically or is cancelled because a condition no longer holds, in which
case the caller restarts.  The interleaving is arbitrary: between a
caller's plan and its commit attempt, any other callers may plan or
commit. -/

/-- Client state of one in-flight `put` call in the concurrent model. -/
inductive ClientState where
  | idle
  | planned (ps : List PlannedPut) (v : Int)
  | done (v : Int)
deriving DecidableEq

/-- Global state: the backing store plus each caller's state. -/
structure SysState (N : Nat) where
  store : Store
  clients : Fin N → ClientState

/-- One interleaved step: some caller plans from the current store, or
commits its planned transaction (all conditions checked against the
current store, writes applied atomically), or observes the cancelled
transaction and goes back to re-read (the `continue` of the retry loop). -/
inductive SysStep (self : BaseDynamoDBAutoIncrement) (schema : Schema)
    {N : Nat} (cand : Fin N → Item) : SysState N → SysState N → Prop
  | plan (σ : SysState N) (i : Fin N) (ps : List PlannedPut) (v : Int)
      (hidle : σ.clients i = ClientState.idle)
      (hnext : DynamoDBAutoIncrement.next self schema σ.store (cand i) =
        some (ps, v)) :
      SysStep self schema cand σ
        ⟨σ.store, Function.update σ.clients i (ClientState.planned ps v)⟩
  | commit (σ : SysState N) (i : Fin N) (ps : List PlannedPut) (v : Int)
      (s2 : Store)
      (hpl : σ.clients i = ClientState.planned ps v)
      (htr : transact_write_items schema σ.store ps = some s2) :
      SysStep self schema cand σ
        ⟨s2, Function.update σ.clients i (ClientState.done v)⟩
  | conflict (σ : SysState N) (i : Fin N) (ps : List PlannedPut) (v : Int)
      (hpl : σ.clients i = ClientState.planned ps v)
      (htr : transact_write_items schema σ.store ps = none) :
      SysStep self schema cand σ
        ⟨σ.store, Function.update σ.clients i ClientState.idle⟩

/-- The initial state of a run against a fresh counter: empty store, no
caller started. -/
def initState (N : Nat) : SysState N :=
  ⟨freshStore, fun _ => ClientState.idle⟩

/-- The raw stored counter value (before `boto3`'s NULL translation). -/
def rawCounter (self : BaseDynamoDBAutoIncrement) (schema : Schema)
    (s : Store) : Option DDBValue :=
  (tipRead self schema s).bind (fun it => Item.get it self.attribute_name)

/-- The shape of every plan the plain planner can emit: the counter-table
write carries `{**counter_table_key, attribute_name: v}` and either the
not-exists condition with `v = initial_value` or a compare-and-swap
against the read value `w` with `v = w + 1`; the second write goes to the
target table. -/
def PlanShape (self : BaseDynamoDBAutoIncrement) (ps : List PlannedPut)
    (v : Int) : Prop :=
  ∃ c2 p2,
    ps = [{ table := self.counter_table_name,
            item := Item.setAttr (Item.norm self.counter_table_key)
              self.attribute_name (DDBValue.int v),
            cond := c2 }, p2] ∧
    p2.table = self.table_name ∧
    ((c2 = Cond.attrNotExists self.attribute_name ∧ v = self.initial_value) ∨
     (∃ w : DDBValue, c2 = Cond.attrEq self.attribute_name w ∧
       ∃ m : Int, w.asPyNumber = some m ∧ v = m + 1))

/-- The invariant of concurrent plain-counter runs: with `k` values
assigned so far, the stored counter reads `initial_value + k - 1` (absent
when `k = 0`), the set of values of finished callers is exactly
`[initial_value, initial_value + k)` with no value finished twice, and
every outstanding plan has the planner's shape. -/
def C1Inv (self : BaseDynamoDBAutoIncrement) (schema : Schema) {N : Nat}
    (σ : SysState N) : Prop :=
  ∃ k : Nat,
    (rawCounter self schema σ.store =
      match k with
      | 0 => none
      | Nat.succ m => some (DDBValue.int (self.initial_value + m))) ∧
    (∀ v : Int, (∃ i, σ.clients i = ClientState.done v) ↔
      (self.initial_value ≤ v ∧ v < self.initial_value + k)) ∧
    (∀ i j v w, σ.clients i = ClientState.done v →
      σ.clients j = ClientState.done w → i ≠ j → v ≠ w) ∧
    (∀ i ps v, σ.clients i = ClientState.planned ps v → PlanShape self ps v)

/-- The store after the single commit of the one-caller run used as a
concrete instantiation of claim C1. -/
def c1CommittedStore : Store :=
  List.foldl (fun st p => Store.putItem testSchema st p.table p.item)
    freshStore freshPlanPuts

/-- The final system state of a complete one-caller run: plan from the
fresh store, then commit. -/
def c1FinalState : SysState 1 :=
  ⟨c1CommittedStore,
   Function.update
     (Function.update (fun _ => ClientState.idle) 0
       (ClientState.planned freshPlanPuts 1))
     0 (ClientState.done 1)⟩

theorem Item.get_setAttr_self (it : Item) (k : String) (v : DDBValue) :
    (it.setAttr k v).get k = some v := by
  induction it with
  | nil => simp [Item.setAttr, Item.get]
  | cons kv rest ih =>
    by_cases h : k = kv.1
    · simp [Item.setAttr, Item.get, h]
    · simp [Item.setAttr, Item.get, h, ih]

theorem Item.get_setAttr_ne (it : Item) {k k' : String} (v : DDBValue)
    (h : k' ≠ k) : (it.setAttr k v).get k' = it.get k' := by
  induction it with
  | nil => simp [Item.setAttr, Item.get, h]
  | cons kv rest ih =>
    by_cases hk : k = kv.1
    · subst hk
      simp [Item.setAttr, Item.get, h, ih]
    · by_cases hk' : k' = kv.1
      · simp [Item.setAttr, Item.get, hk, hk']
      · simp [Item.setAttr, Item.get, hk, hk', ih]

theorem Item.get_eq_none_of_forall_ne {it : Item} {k : String}
    (h : ∀ p ∈ it, k ≠ p.1) : it.get k = none := by
  induction it with
  | nil => rfl
  | cons p ps ih =>
    have h1 : k ≠ p.1 := h p (by simp)
    simp only [Item.get, if_neg h1]
    exact ih (fun q hq => h q (by simp [hq]))

theorem Item.get_mergeWith (base : Item) {extra : Item} (hwf : Item.Wf extra)
    (k : String) :
    (base.mergeWith extra).get k = (extra.get k).elim (base.get k) some := by
  induction extra generalizing base with
  | nil => simp [Item.mergeWith, Item.get]
  | cons kv rest ih =>
    have hrest : Item.Wf rest := (List.pairwise_cons.mp hwf).2
    have hk : ∀ p ∈ rest, kv.1 ≠ p.1 := (List.pairwise_cons.mp hwf).1
    show ((base.setAttr kv.1 kv.2).mergeWith rest).get k = _
    rw [ih _ hrest]
    by_cases h : k = kv.1
    · have hnone : Item.get rest kv.1 = none :=
        Item.get_eq_none_of_forall_ne (fun q hq => hk q hq)
      subst h
      simp [Item.get, hnone, Item.get_setAttr_self]
    · simp [Item.get, h, Item.get_setAttr_ne _ _ h]

theorem Item.get_norm {it : Item} (hwf : Item.Wf it) (k : String) :
    it.norm.get k = it.get k := by
  rw [Item.norm, Item.get_mergeWith _ hwf]
  cases it.get k <;> simp [Item.get]

theorem Store.getItem_putItem_other (schema : Schema) (s : Store)
    {t t' : String} (it : Item) (key : Item) (h : t' ≠ t) :
    Store.getItem schema (Store.putItem schema s t it) t' key =
      Store.getItem schema s t' key := by
  simp [Store.getItem, Store.putItem, h]

theorem Store.getItem_putItem_self (schema : Schema) (s : Store)
    (t : String) (it : Item) (key : Item)
    (h : sameKey (schema t) it key = true) :
    Store.getItem schema (Store.putItem schema s t it) t key = some it := by
  simp [Store.getItem, Store.putItem, List.find?, h]

theorem Item.get_of_mem_wf {it : Item} {k : String} {w : DDBValue}
    (hwf : Item.Wf it) (hm : (k, w) ∈ it) : Item.get it k = some w := by
  induction it with
  | nil => cases hm
  | cons p ps ih =>
    rcases List.mem_cons.mp hm with h | h
    · cases h
      simp [Item.get]
    · have hne : k ≠ p.1 :=
        fun he => ((List.pairwise_cons.mp hwf).1 (k, w) h) (by simp [← he])
      simp only [Item.get, if_neg hne]
      exact ih (List.pairwise_cons.mp hwf).2 h

theorem sameKey_of_get_eq {ks : List String} {a b : Item}
    (h : ∀ k ∈ ks, Item.get a k = Item.get b k) : sameKey ks a b = true := by
  simp only [sameKey, List.all_eq_true, decide_eq_true_eq]
  exact h

theorem get_eq_of_sameKey {ks : List String} {a b : Item}
    (h : sameKey ks a b = true) : ∀ k ∈ ks, Item.get a k = Item.get b k := by
  simpa only [sameKey, List.all_eq_true, decide_eq_true_eq] using h

theorem sameKey_refl (ks : List String) (a : Item) : sameKey ks a a = true :=
  sameKey_of_get_eq (fun _ _ => rfl)

theorem sameKey_congr_right {ks : List String} {k1 k2 : Item} (it : Item)
    (h : ∀ k ∈ ks, Item.get k1 k = Item.get k2 k) :
    sameKey ks it k1 = sameKey ks it k2 := by
  induction ks with
  | nil => rfl
  | cons k rest ih =>
    have h1 : Item.get k1 k = Item.get k2 k := h k (by simp)
    simp only [sameKey, List.all_cons] at *
    rw [h1, ih (fun j hj => h j (by simp [hj]))]

theorem Store.getItem_congr_key (schema : Schema) (s : Store) (t : String)
    {k1 k2 : Item} (h : ∀ k ∈ schema t, Item.get k1 k = Item.get k2 k) :
    Store.getItem schema s t k1 = Store.getItem schema s t k2 := by
  unfold Store.getItem
  induction s t with
  | nil => rfl
  | cons it rest ih =>
    simp only [List.find?]
    rw [sameKey_congr_right it h]
    cases sameKey (schema t) it k2 <;> simp [ih]

theorem Store.getItem_mem {schema : Schema} {s : Store} {t : String}
    {key it : Item} (h : Store.getItem schema s t key = some it) :
    it ∈ s t :=
  List.mem_of_find?_eq_some h

theorem Store.getItem_sameKey {schema : Schema} {s : Store} {t : String}
    {key it : Item} (h : Store.getItem schema s t key = some it) :
    sameKey (schema t) it key = true := by
  have h2 : List.find? (fun x => sameKey (schema t) x key) (s t) = some it := h
  have h3 := List.find?_some h2
  exact h3

/-- The item of the plain counter-table write,
`{**counter_table_key, attribute_name: next_counter}`. -/
theorem get_counter_write_item (self : BaseDynamoDBAutoIncrement)
    (hwf : Item.Wf self.counter_table_key) (v : Int) (k : String) :
    Item.get (Item.setAttr (Item.norm self.counter_table_key)
        self.attribute_name (DDBValue.int v)) k =
      if k = self.attribute_name then some (DDBValue.int v)
      else Item.get self.counter_table_key k := by
  by_cases h : k = self.attribute_name
  · subst h
    simp [Item.get_setAttr_self]
  · rw [if_neg h, Item.get_setAttr_ne _ _ h, Item.get_norm hwf]

/-- Every attribute listed in `attrNames` resolves in a well-formed item. -/
theorem get_isSome_of_mem_attrNames {it : Item} {k : String}
    (hm : k ∈ Item.attrNames it) : (Item.get it k).isSome := by
  induction it with
  | nil => cases hm
  | cons p ps ih =>
    rcases List.mem_cons.mp hm with h | h
    · simp [Item.get, h]
    · by_cases he : k = p.1
      · simp [Item.get, he]
      · simp only [Item.get, if_neg he]
        exact ih h

theorem Item.pyGet_of_get_none {it : Item} {k : String}
    (h : Item.get it k = none) : Item.pyGet it k = none := by
  simp [Item.pyGet, h]

theorem Item.get_of_pyGet_some {it : Item} {k : String} {v : DDBValue}
    (h : Item.pyGet it k = some v) : Item.get it k = some v := by
  unfold Item.pyGet at h
  rcases hg : Item.get it k with _ | w
  · rw [hg] at h
    cases h
  · rw [hg] at h
    cases w <;> simp_all

theorem Option.elim_some_isSome {o : Option DDBValue} {d : Option DDBValue}
    (h : o.isSome = true) : o.elim d some = o := by
  rcases o with _ | v
  · cases h
  · rfl

/-- Claim C3: `put` retries (re-read, re-plan, re-attempt) exactly when the
atomic transaction attempt is rejected because a condition in the batch no
longer held due to a concurrent writer; this conflict is never surfaced to
the caller; every store error not identified as such a conflict is
propagated to the caller immediately, unchanged and without any retry. -/
theorem claim_C3_retry_semantics
    (nextFn : Store → Item → Option (List PlannedPut × Int))
    (schema : Schema) (item : Item) (s : Store)
    (rest : List (Store × Option String)) (ps : List PlannedPut) (v : Int)
    (e : String) (hn : nextFn s item = some (ps, v)) :
    (transact_write_items schema s ps = none →
      BaseDynamoDBAutoIncrement.put nextFn schema item ((s, none) :: rest) =
        BaseDynamoDBAutoIncrement.put nextFn schema item rest) ∧
    (∀ s2, transact_write_items schema s ps = some s2 →
      BaseDynamoDBAutoIncrement.put nextFn schema item ((s, none) :: rest) =
        PutOutcome.done s2 v) ∧
    BaseDynamoDBAutoIncrement.put nextFn schema item ((s, some e) :: rest) =
      PutOutcome.fatal e := by
  refine ⟨fun hc => ?_, fun s2 hc => ?_, ?_⟩ <;>
    simp [BaseDynamoDBAutoIncrement.put, hn] <;> simp [hc]

/-- Witness for C3 at the test fixture: a first attempt against a fresh
store whose transaction succeeds returns the committed store and value 1;
a cancelled first attempt would continue with the remaining attempts; an
injected non-conflict error is fatal as-is. -/
theorem claim_C3_retry_semantics_witness :
    (transact_write_items testSchema freshStore freshPlanPuts = none →
      BaseDynamoDBAutoIncrement.put
          (DynamoDBAutoIncrement.next widgetsCfg testSchema) testSchema []
          ((freshStore, none) :: []) =
        BaseDynamoDBAutoIncrement.put
          (DynamoDBAutoIncrement.next widgetsCfg testSchema) testSchema [] []) ∧
    (∀ s2, transact_write_items testSchema freshStore freshPlanPuts = some s2 →
      BaseDynamoDBAutoIncrement.put
          (DynamoDBAutoIncrement.next widgetsCfg testSchema) testSchema []
          ((freshStore, none) :: []) = PutOutcome.done s2 1) ∧
    BaseDynamoDBAutoIncrement.put
        (DynamoDBAutoIncrement.next widgetsCfg testSchema) testSchema []
        ((freshStore, some "ValidationException") :: []) =
      PutOutcome.fatal "ValidationException" :=
  claim_C3_retry_semantics (DynamoDBAutoIncrement.next widgetsCfg testSchema)
    testSchema [] freshStore [] freshPlanPuts 1 "ValidationException" (by decide)

/-- Counterexample to claim C7 ("issues each planned write as an
independent, unconditioned put"): with `dangerously = True` against a
store whose target table already holds a record at the computed key, the
dangerous branch raises `ConditionalCheckFailedException` — the planned
conditions are forwarded to `put_item` and enforced — while the
unconditioned issuance the claim describes would have succeeded and
returned 1.  Moreover the failure leaves the counter table already
advanced (partial state), which an atomic or unconditioned run would not
produce in this shape. -/
theorem claim_C7_counterexample :
    (BaseDynamoDBAutoIncrement.putDangerous
        (DynamoDBAutoIncrement.next widgetsCfgDangerous testSchema)
        testSchema occupiedTargetStore []).2 =
      Except.error "ConditionalCheckFailedException" ∧
    (specPutDangerousUnconditioned
        (DynamoDBAutoIncrement.next widgetsCfgDangerous testSchema)
        testSchema occupiedTargetStore []).2 = Except.ok 1 ∧
    (BaseDynamoDBAutoIncrement.putDangerous
        (DynamoDBAutoIncrement.next widgetsCfgDangerous testSchema)
        testSchema occupiedTargetStore []).1 "autoincrement" =
      [[("tableName", DDBValue.str "widgets"), ("widgetID", DDBValue.int 1)]] := by
  refine ⟨rfl, rfl, by decide⟩

/-- Claim C7 as amended: when `dangerously` is set, `put` skips the atomic
transaction and issues each planned write as an independent `put_item`
with its planned condition still attached: the writes are applied
sequentially, each condition checked against the store reached so far,
the first failed condition raises `ConditionalCheckFailedException`
(propagated, not retried) leaving the earlier writes applied, and a fully
successful pass returns the planned value. -/
theorem claim_C7_amended_conditional_independent_puts
    (nextFn : Store → Item → Option (List PlannedPut × Int))
    (schema : Schema) (s : Store) (item : Item)
    (p1 p2 : PlannedPut) (v : Int)
    (hn : nextFn s item = some ([p1, p2], v)) :
    (condOk schema s p1 = false →
      BaseDynamoDBAutoIncrement.putDangerous nextFn schema s item =
        (s, Except.error "ConditionalCheckFailedException")) ∧
    (condOk schema s p1 = true →
      condOk schema (Store.putItem schema s p1.table p1.item) p2 = false →
      BaseDynamoDBAutoIncrement.putDangerous nextFn schema s item =
        (Store.putItem schema s p1.table p1.item,
         Except.error "ConditionalCheckFailedException")) ∧
    (condOk schema s p1 = true →
      condOk schema (Store.putItem schema s p1.table p1.item) p2 = true →
      BaseDynamoDBAutoIncrement.putDangerous nextFn schema s item =
        (Store.putItem schema (Store.putItem schema s p1.table p1.item)
           p2.table p2.item,
         Except.ok v)) := by
  refine ⟨fun h1 => ?_, fun h1 h2 => ?_, fun h1 h2 => ?_⟩ <;>
    simp [BaseDynamoDBAutoIncrement.putDangerous, hn, putDangerousLoop,
      put_item_conditional, h1] <;>
    simp [h2]

/-- Witness for the amended C7 at the test fixture: against
`occupiedTargetStore` the counter-table condition holds, the target-table
condition fails after the counter write, and the dangerous branch stops
with `ConditionalCheckFailedException` and the counter write applied. -/
theorem claim_C7_amended_witness :
    (condOk testSchema occupiedTargetStore
        { table := "autoincrement",
          item := [("tableName", DDBValue.str "widgets"), ("widgetID", DDBValue.int 1)],
          cond := Cond.attrNotExists "widgetID" } = true) ∧
    BaseDynamoDBAutoIncrement.putDangerous
        (DynamoDBAutoIncrement.next widgetsCfgDangerous testSchema)
        testSchema occupiedTargetStore [] =
      (Store.putItem testSchema occupiedTargetStore "autoincrement"
         [("tableName", DDBValue.str "widgets"), ("widgetID", DDBValue.int 1)],
       Except.error "ConditionalCheckFailedException") := by
  have h := claim_C7_amended_conditional_independent_puts
    (DynamoDBAutoIncrement.next widgetsCfgDangerous testSchema)
    testSchema occupiedTargetStore []
    { table := "autoincrement",
      item := [("tableName", DDBValue.str "widgets"), ("widgetID", DDBValue.int 1)],
      cond := Cond.attrNotExists "widgetID" }
    { table := "widgets",
      item := [("widgetID", DDBValue.int 1)],
      cond := Cond.attrNotExists "widgetID" }
    1 (by decide)
  exact ⟨by decide, h.2.1 (by decide) (by decide)⟩

/-- Counterexample to claim C2 ("a second planned write inserting the
candidate merged with `{attributeName: nextValue}`"): for the candidate
`{widgetID: 99}` against a fresh plain counter, the planner computes
`nextValue = 1` but the second planned item is the code's
`{attribute_name: next_counter, **item}` — the candidate's binding
prevails — so the planned item is `{widgetID: 99}`, not the claimed
merge `{widgetID: 1}`. -/
theorem claim_C2_counterexample :
    (DynamoDBAutoIncrement.next widgetsCfg testSchema freshStore
        [("widgetID", DDBValue.int 99)]).map
      (fun r => (r.1.map PlannedPut.item, r.2)) =
      some ([[("tableName", DDBValue.str "widgets"),
              ("widgetID", DDBValue.int 1)],
             [("widgetID", DDBValue.int 99)]], 1) ∧
    specMergedRecord [("widgetID", DDBValue.int 99)] "widgetID" 1 =
      [("widgetID", DDBValue.int 1)] ∧
    [("widgetID", DDBValue.int 99)] ≠
      specMergedRecord [("widgetID", DDBValue.int 99)] "widgetID" 1 := by
  refine ⟨by decide, by decide, by decide⟩

/-- Claim C2 as amended: for every candidate item and every store state,
the plain-counter planner `next` returns: if the counter attribute is
absent, `nextValue = initialValue` and a counter-table write conditioned
on the attribute not existing; if the attribute is present with value
`c`, `nextValue = c + 1` and a counter-table write conditioned on the
attribute still equalling `c`; and in both cases a second planned write
inserting `{attributeName: nextValue}` overridden by the candidate's
fields — the candidate's binding for the attribute name prevails, so the
planned item equals the candidate merged with `{attributeName:
nextValue}` exactly when the candidate does not bind the attribute
name — into the target table, conditioned on no record with the written
item's key already existing (the `attribute_not_exists` condition, which
over target-table records carrying the key attribute is exactly "no
record at the written item's key"). -/
theorem claim_C2_plain_planner (self : BaseDynamoDBAutoIncrement)
    (schema : Schema) (s : Store) (item : Item)
    (hwfk : Item.Wf self.counter_table_key) (hwfi : Item.Wf item) :
    (counterPy self schema s = none →
      ∃ p1 p2,
        DynamoDBAutoIncrement.next self schema s item =
          some ([p1, p2], self.initial_value) ∧
        p1.table = self.counter_table_name ∧
        p1.cond = Cond.attrNotExists self.attribute_name ∧
        (∀ k, Item.get p1.item k =
          if k = self.attribute_name then some (DDBValue.int self.initial_value)
          else Item.get self.counter_table_key k) ∧
        p2.table = self.table_name ∧
        p2.cond = Cond.attrNotExists self.attribute_name ∧
        (∀ k, Item.get p2.item k =
          (Item.get item k).elim
            (if k = self.attribute_name then
               some (DDBValue.int self.initial_value)
             else none) some) ∧
        (Item.get item self.attribute_name = none →
          ∀ k, Item.get p2.item k = Item.get
            (specMergedRecord item self.attribute_name self.initial_value) k) ∧
        (∀ s2 : Store,
          (∀ it ∈ s2 self.table_name,
            (Item.get it self.attribute_name).isSome = true) →
          (condOk schema s2 p2 = true ↔
            Store.getItem schema s2 self.table_name p2.item = none))) ∧
    (∀ c : Int, counterPy self schema s = some (DDBValue.int c) →
      ∃ p1 p2,
        DynamoDBAutoIncrement.next self schema s item = some ([p1, p2], c + 1) ∧
        p1.table = self.counter_table_name ∧
        p1.cond = Cond.attrEq self.attribute_name (DDBValue.int c) ∧
        (∀ k, Item.get p1.item k =
          if k = self.attribute_name then some (DDBValue.int (c + 1))
          else Item.get self.counter_table_key k) ∧
        p2.table = self.table_name ∧
        p2.cond = Cond.attrNotExists self.attribute_name ∧
        (∀ k, Item.get p2.item k =
          (Item.get item k).elim
            (if k = self.attribute_name then some (DDBValue.int (c + 1))
             else none) some) ∧
        (Item.get item self.attribute_name = none →
          ∀ k, Item.get p2.item k = Item.get
            (specMergedRecord item self.attribute_name (c + 1)) k) ∧
        (∀ s2 : Store,
          (∀ it ∈ s2 self.table_name,
            (Item.get it self.attribute_name).isSome = true) →
          (condOk schema s2 p2 = true ↔
            Store.getItem schema s2 self.table_name p2.item = none))) := by
  have hbridge : ∀ p2 : PlannedPut, p2.table = self.table_name →
      p2.cond = Cond.attrNotExists self.attribute_name →
      ∀ s2 : Store,
      (∀ it ∈ s2 self.table_name,
        (Item.get it self.attribute_name).isSome = true) →
      (condOk schema s2 p2 = true ↔
        Store.getItem schema s2 self.table_name p2.item = none) := by
    intro p2 ht hc s2 hall
    unfold condOk
    rw [ht, hc]
    rcases hx : Store.getItem schema s2 self.table_name p2.item with _ | it
    · simp [Cond.holds]
    · have hmem : it ∈ s2 self.table_name := Store.getItem_mem hx
      have : (Item.get it self.attribute_name).isSome = true := hall it hmem
      simp [Cond.holds, Option.isNone_iff_eq_none]
      intro h
      rw [h] at this
      cases this
  have htgt : ∀ v : Int, ∀ k,
      Item.get (Item.mergeWith [(self.attribute_name, DDBValue.int v)] item) k =
        (Item.get item k).elim
          (if k = self.attribute_name then some (DDBValue.int v) else none)
          some := by
    intro v k
    rw [Item.get_mergeWith _ hwfi]
    by_cases h : k = self.attribute_name <;>
      simp [Item.get, h]
  have hspec : ∀ v : Int, Item.get item self.attribute_name = none →
      ∀ k, Item.get
        (Item.mergeWith [(self.attribute_name, DDBValue.int v)] item) k =
        Item.get (specMergedRecord item self.attribute_name v) k := by
    intro v hnone k
    rw [Item.get_mergeWith _ hwfi]
    unfold specMergedRecord
    by_cases h : k = self.attribute_name
    · subst h
      rw [hnone, Item.get_setAttr_self]
      simp [Item.get]
    · rw [Item.get_setAttr_ne _ _ h]
      cases hg : Item.get item k <;> simp [Item.get, h, hg]
  constructor
  · intro hc
    exact ⟨{ table := self.counter_table_name,
             item := Item.setAttr (Item.norm self.counter_table_key)
               self.attribute_name (DDBValue.int self.initial_value),
             cond := Cond.attrNotExists self.attribute_name },
           { table := self.table_name,
             item := Item.mergeWith
               [(self.attribute_name, DDBValue.int self.initial_value)] item,
             cond := Cond.attrNotExists self.attribute_name },
           by simp [DynamoDBAutoIncrement.next, hc, nextAndCond],
           rfl, rfl, get_counter_write_item self hwfk _, rfl, rfl,
           htgt self.initial_value, hspec self.initial_value,
           hbridge _ rfl rfl⟩
  · intro c hc
    exact ⟨{ table := self.counter_table_name,
             item := Item.setAttr (Item.norm self.counter_table_key)
               self.attribute_name (DDBValue.int (c + 1)),
             cond := Cond.attrEq self.attribute_name (DDBValue.int c) },
           { table := self.table_name,
             item := Item.mergeWith
               [(self.attribute_name, DDBValue.int (c + 1))] item,
             cond := Cond.attrNotExists self.attribute_name },
           by simp [DynamoDBAutoIncrement.next, hc, nextAndCond,
             DDBValue.asPyNumber],
           rfl, rfl, get_counter_write_item self hwfk _, rfl, rfl,
           htgt (c + 1), hspec (c + 1), hbridge _ rfl rfl⟩

/-- Witness for the amended C2: the absent case at a fresh store and the
present case at a store whose counter already holds 3, both with the
test fixture. -/
theorem claim_C2_plain_planner_witness :
    ((counterPy widgetsCfg testSchema freshStore = none → ∃ p1 p2,
        DynamoDBAutoIncrement.next widgetsCfg testSchema freshStore
            [("widgetName", DDBValue.str "runcible spoon")] =
          some ([p1, p2], widgetsCfg.initial_value) ∧
        p1.table = widgetsCfg.counter_table_name ∧
        p1.cond = Cond.attrNotExists widgetsCfg.attribute_name ∧
        (∀ k, Item.get p1.item k =
          if k = widgetsCfg.attribute_name then
            some (DDBValue.int widgetsCfg.initial_value)
          else Item.get widgetsCfg.counter_table_key k) ∧
        p2.table = widgetsCfg.table_name ∧
        p2.cond = Cond.attrNotExists widgetsCfg.attribute_name ∧
        (∀ k, Item.get p2.item k =
          (Item.get [("widgetName", DDBValue.str "runcible spoon")] k).elim
            (if k = widgetsCfg.attribute_name then
               some (DDBValue.int widgetsCfg.initial_value)
             else none) some) ∧
        (Item.get [("widgetName", DDBValue.str "runcible spoon")]
            widgetsCfg.attribute_name = none →
          ∀ k, Item.get p2.item k = Item.get
            (specMergedRecord [("widgetName", DDBValue.str "runcible spoon")]
              widgetsCfg.attribute_name widgetsCfg.initial_value) k) ∧
        (∀ s2 : Store,
          (∀ it ∈ s2 widgetsCfg.table_name,
            (Item.get it widgetsCfg.attribute_name).isSome = true) →
          (condOk testSchema s2 p2 = true ↔
            Store.getItem testSchema s2 widgetsCfg.table_name p2.item = none)))) ∧
    (∀ c : Int, counterPy widgetsCfg testSchema counter3Store =
        some (DDBValue.int c) → ∃ p1 p2,
        DynamoDBAutoIncrement.next widgetsCfg testSchema counter3Store [] =
          some ([p1, p2], c + 1) ∧
        p1.table = widgetsCfg.counter_table_name ∧
        p1.cond = Cond.attrEq widgetsCfg.attribute_name (DDBValue.int c) ∧
        (∀ k, Item.get p1.item k =
          if k = widgetsCfg.attribute_name then some (DDBValue.int (c + 1))
          else Item.get widgetsCfg.counter_table_key k) ∧
        p2.table = widgetsCfg.table_name ∧
        p2.cond = Cond.attrNotExists widgetsCfg.attribute_name ∧
        (∀ k, Item.get p2.item k =
          (Item.get [] k).elim
            (if k = widgetsCfg.attribute_name then some (DDBValue.int (c + 1))
             else none) some) ∧
        (Item.get [] widgetsCfg.attribute_name = none →
          ∀ k, Item.get p2.item k = Item.get
            (specMergedRecord [] widgetsCfg.attribute_name (c + 1)) k) ∧
        (∀ s2 : Store,
          (∀ it ∈ s2 widgetsCfg.table_name,
            (Item.get it widgetsCfg.attribute_name).isSome = true) →
          (condOk testSchema s2 p2 = true ↔
            Store.getItem testSchema s2 widgetsCfg.table_name p2.item = none))) :=
  ⟨(claim_C2_plain_planner widgetsCfg testSchema freshStore
      [("widgetName", DDBValue.str "runcible spoon")] (by decide) (by decide)).1,
   (claim_C2_plain_planner widgetsCfg testSchema counter3Store []
      (by decide) (by decide)).2⟩

/-- The item of the history tip write,
`{**item, **counter_table_key, attribute_name: next_counter}`: the
configured key and the computed counter value override any bindings of
the candidate. -/
theorem get_tip_write_item (self : BaseDynamoDBAutoIncrement) {item : Item}
    (hwfk : Item.Wf self.counter_table_key) (hwfi : Item.Wf item)
    (v : Int) (k : String) :
    Item.get (Item.setAttr
        (Item.mergeWith (Item.norm item) self.counter_table_key)
        self.attribute_name (DDBValue.int v)) k =
      if k = self.attribute_name then some (DDBValue.int v)
      else (Item.get self.counter_table_key k).elim (Item.get item k) some := by
  by_cases h : k = self.attribute_name
  · subst h
    simp [Item.get_setAttr_self]
  · rw [if_neg h, Item.get_setAttr_ne _ _ h, Item.get_mergeWith _ hwfk,
      Item.get_norm hwfi]

/-- Unfolding of the history planner when no tip exists. -/
theorem history_next_no_tip (self : BaseDynamoDBAutoIncrement)
    (schema : Schema) (s : Store) (item : Item)
    (ht : tipRead self schema s = none) :
    DynamoDBHistoryAutoIncrement.next self schema s item =
      some ([{ table := self.counter_table_name,
               item := Item.setAttr
                 (Item.mergeWith (Item.norm item) self.counter_table_key)
                 self.attribute_name (DDBValue.int self.initial_value),
               cond := Cond.attrNotExists self.attribute_name }],
            self.initial_value) := by
  simp [DynamoDBHistoryAutoIncrement.next, counterPy, ht, nextAndCond]

/-- Unfolding of the history planner in the pre-versioning case: the tip
exists but its counter attribute reads as Python `None`. -/
theorem history_next_preversioning (self : BaseDynamoDBAutoIncrement)
    (schema : Schema) (s : Store) (item : Item) (ex : Item)
    (ht : tipRead self schema s = some ex)
    (hg : Item.pyGet ex self.attribute_name = none) :
    DynamoDBHistoryAutoIncrement.next self schema s item =
      some ([{ table := self.counter_table_name,
               item := Item.setAttr
                 (Item.mergeWith (Item.norm item) self.counter_table_key)
                 self.attribute_name (DDBValue.int (self.initial_value + 1)),
               cond := Cond.attrNotExists self.attribute_name },
             { table := self.table_name,
               item := Item.setAttr ex self.attribute_name
                 (DDBValue.int self.initial_value),
               cond := Cond.attrNotExists self.attribute_name }],
            self.initial_value + 1) := by
  simp [DynamoDBHistoryAutoIncrement.next, counterPy, ht, hg, nextAndCond]

/-- Unfolding of the history planner when the tip exists and carries a
numeric counter value. -/
theorem history_next_with_counter (self : BaseDynamoDBAutoIncrement)
    (schema : Schema) (s : Store) (item : Item) (ex : Item) (w : DDBValue)
    (c : Int) (ht : tipRead self schema s = some ex)
    (hg : Item.pyGet ex self.attribute_name = some w)
    (hw : w.asPyNumber = some c) :
    DynamoDBHistoryAutoIncrement.next self schema s item =
      some ([{ table := self.counter_table_name,
               item := Item.setAttr
                 (Item.mergeWith (Item.norm item) self.counter_table_key)
                 self.attribute_name (DDBValue.int (c + 1)),
               cond := Cond.attrEq self.attribute_name w },
             { table := self.table_name, item := ex,
               cond := Cond.attrNotExists self.attribute_name }],
            c + 1) := by
  simp [DynamoDBHistoryAutoIncrement.next, counterPy, ht, hg, hw, nextAndCond]

/-- Claim C10: for every candidate item — including one that already
contains a value under the configured attribute name or under a
counter-key field — the history variant's planned tip write stores the
configured counter key and the attribute name mapped to the planner's
computed `nextValue` (the candidate's conflicting values for those fields
are overridden), and `put` still returns that computed `nextValue`. -/
theorem claim_C10_tip_overrides_candidate (self : BaseDynamoDBAutoIncrement)
    (schema : Schema) (s : Store) (item : Item) (ps : List PlannedPut)
    (v : Int) (hwfk : Item.Wf self.counter_table_key)
    (hattr : self.attribute_name ∉ Item.attrNames self.counter_table_key)
    (hn : DynamoDBHistoryAutoIncrement.next self schema s item = some (ps, v)) :
    ∃ tip rest, ps = tip :: rest ∧
      tip.table = self.counter_table_name ∧
      Item.get tip.item self.attribute_name = some (DDBValue.int v) ∧
      (∀ k w, (k, w) ∈ self.counter_table_key → Item.get tip.item k = some w) ∧
      (∀ rest2 s2, transact_write_items schema s ps = some s2 →
        BaseDynamoDBAutoIncrement.put
            (DynamoDBHistoryAutoIncrement.next self schema) schema item
            ((s, none) :: rest2) = PutOutcome.done s2 v) := by
  have hkey : ∀ w0 : Int, ∀ k w, (k, w) ∈ self.counter_table_key →
      Item.get (Item.setAttr
        (Item.mergeWith (Item.norm item) self.counter_table_key)
        self.attribute_name (DDBValue.int w0)) k = some w := by
    intro w0 k w hm
    have hk : k ≠ self.attribute_name := by
      intro he
      exact hattr (he ▸ List.mem_map_of_mem Prod.fst hm)
    rw [Item.get_setAttr_ne _ _ hk, Item.get_mergeWith _ hwfk,
      Item.get_of_mem_wf hwfk hm]
    rfl
  have hput : ∀ rest2 s2, transact_write_items schema s ps = some s2 →
      BaseDynamoDBAutoIncrement.put
          (DynamoDBHistoryAutoIncrement.next self schema) schema item
          ((s, none) :: rest2) = PutOutcome.done s2 v := by
    intro rest2 s2 htr
    simp [BaseDynamoDBAutoIncrement.put, hn, htr]
  rcases ht : tipRead self schema s with _ | ex
  · rw [history_next_no_tip self schema s item ht] at hn
    obtain ⟨hps, hv⟩ : _ ∧ self.initial_value = v := by
      have := Option.some.inj hn
      exact ⟨congrArg Prod.fst this, congrArg Prod.snd this⟩
    subst hv
    exact ⟨_, _, hps.symm, rfl, Item.get_setAttr_self _ _ _, hkey _, hput⟩
  · rcases hg : Item.pyGet ex self.attribute_name with _ | w
    · rw [history_next_preversioning self schema s item ex ht hg] at hn
      obtain ⟨hps, hv⟩ : _ ∧ self.initial_value + 1 = v := by
        have := Option.some.inj hn
        exact ⟨congrArg Prod.fst this, congrArg Prod.snd this⟩
      subst hv
      exact ⟨_, _, hps.symm, rfl, Item.get_setAttr_self _ _ _, hkey _, hput⟩
    · rcases hw : w.asPyNumber with _ | c
      · exfalso
        rw [DynamoDBHistoryAutoIncrement.next] at hn
        simp [counterPy, ht, hg, nextAndCond, hw] at hn
      · rw [history_next_with_counter self schema s item ex w c ht hg hw] at hn
        obtain ⟨hps, hv⟩ : _ ∧ c + 1 = v := by
          have := Option.some.inj hn
          exact ⟨congrArg Prod.fst this, congrArg Prod.snd this⟩
        subst hv
        exact ⟨_, _, hps.symm, rfl, Item.get_setAttr_self _ _ _, hkey _, hput⟩

/-- Witness for C10 at the test fixture: a candidate carrying both
`version = 42` and `widgetID = 7` against the pre-versioning store; the
planned tip stores `widgetID = 1` and `version = 2`, and `put` returns 2. -/
theorem claim_C10_tip_overrides_candidate_witness :
    ∃ tip rest,
      ([{ table := "widgets",
          item := [("version", DDBValue.int 2), ("widgetID", DDBValue.int 1)],
          cond := Cond.attrNotExists "version" },
        { table := "widgetHistory",
          item := [("widgetID", DDBValue.int 1), ("version", DDBValue.int 1)],
          cond := Cond.attrNotExists "version" }] : List PlannedPut) =
        tip :: rest ∧
      tip.table = versionsCfg.counter_table_name ∧
      Item.get tip.item versionsCfg.attribute_name = some (DDBValue.int 2) ∧
      (∀ k w, (k, w) ∈ versionsCfg.counter_table_key →
        Item.get tip.item k = some w) ∧
      (∀ rest2 s2,
        transact_write_items testSchema preVersioningStore
          [{ table := "widgets",
             item := [("version", DDBValue.int 2), ("widgetID", DDBValue.int 1)],
             cond := Cond.attrNotExists "version" },
           { table := "widgetHistory",
             item := [("widgetID", DDBValue.int 1), ("version", DDBValue.int 1)],
             cond := Cond.attrNotExists "version" }] = some s2 →
        BaseDynamoDBAutoIncrement.put
            (DynamoDBHistoryAutoIncrement.next versionsCfg testSchema)
            testSchema [("version", DDBValue.int 42), ("widgetID", DDBValue.int 7)]
            ((preVersioningStore, none) :: rest2) = PutOutcome.done s2 2) :=
  claim_C10_tip_overrides_candidate versionsCfg testSchema preVersioningStore
    [("version", DDBValue.int 42), ("widgetID", DDBValue.int 7)]
    [{ table := "widgets",
       item := [("version", DDBValue.int 2), ("widgetID", DDBValue.int 1)],
       cond := Cond.attrNotExists "version" },
     { table := "widgetHistory",
       item := [("widgetID", DDBValue.int 1), ("version", DDBValue.int 1)],
       cond := Cond.attrNotExists "version" }] 2
    (by decide) (by decide) (by decide)

/-- Claim C4: for every candidate item and store state, the history
planner `next` returns: when no tip exists, exactly one planned write
(the candidate merged with the key and `nextValue = initialValue`,
conditioned on the attribute not existing); when a tip exists, the
returned list is ordered with the tip write first and the archive write
second, and the archive write stores the prior tip content into the
history table under its own counter value, conditioned on no history
record at that version existing yet (`attribute_not_exists`, which over
history-table records carrying the version attribute is exactly "no
record at the archived item's key"). -/
theorem claim_C4_history_planner (self : BaseDynamoDBAutoIncrement)
    (schema : Schema) (s : Store) (item : Item)
    (hwfk : Item.Wf self.counter_table_key) (hwfi : Item.Wf item) :
    (tipRead self schema s = none →
      ∃ tip, DynamoDBHistoryAutoIncrement.next self schema s item =
          some ([tip], self.initial_value) ∧
        tip.table = self.counter_table_name ∧
        tip.cond = Cond.attrNotExists self.attribute_name ∧
        (∀ k, Item.get tip.item k =
          if k = self.attribute_name then some (DDBValue.int self.initial_value)
          else (Item.get self.counter_table_key k).elim (Item.get item k) some)) ∧
    (∀ ex : Item, ∀ c : Int, tipRead self schema s = some ex →
      Item.pyGet ex self.attribute_name = some (DDBValue.int c) →
      ∃ tip arch, DynamoDBHistoryAutoIncrement.next self schema s item =
          some ([tip, arch], c + 1) ∧
        tip.table = self.counter_table_name ∧
        tip.cond = Cond.attrEq self.attribute_name (DDBValue.int c) ∧
        (∀ k, Item.get tip.item k =
          if k = self.attribute_name then some (DDBValue.int (c + 1))
          else (Item.get self.counter_table_key k).elim (Item.get item k) some) ∧
        arch.table = self.table_name ∧
        arch.item = ex ∧
        Item.get ex self.attribute_name = some (DDBValue.int c) ∧
        arch.cond = Cond.attrNotExists self.attribute_name ∧
        (∀ s2 : Store,
          (∀ it ∈ s2 self.table_name,
            (Item.get it self.attribute_name).isSome = true) →
          (condOk schema s2 arch = true ↔
            Store.getItem schema s2 self.table_name ex = none))) ∧
    (∀ ex : Item, tipRead self schema s = some ex →
      Item.pyGet ex self.attribute_name = none →
      ∃ tip arch, DynamoDBHistoryAutoIncrement.next self schema s item =
          some ([tip, arch], self.initial_value + 1) ∧
        tip.table = self.counter_table_name ∧
        tip.cond = Cond.attrNotExists self.attribute_name ∧
        arch.table = self.table_name ∧
        arch.item = Item.setAttr ex self.attribute_name
          (DDBValue.int self.initial_value) ∧
        Item.get arch.item self.attribute_name =
          some (DDBValue.int self.initial_value) ∧
        arch.cond = Cond.attrNotExists self.attribute_name) := by
  have hbridge : ∀ arch : PlannedPut, arch.table = self.table_name →
      arch.cond = Cond.attrNotExists self.attribute_name →
      ∀ s2 : Store,
      (∀ it ∈ s2 self.table_name,
        (Item.get it self.attribute_name).isSome = true) →
      (condOk schema s2 arch = true ↔
        Store.getItem schema s2 self.table_name arch.item = none) := by
    intro arch ht hc s2 hall
    unfold condOk
    rw [ht, hc]
    rcases hx : Store.getItem schema s2 self.table_name arch.item with _ | it
    · simp [Cond.holds]
    · have hmem : it ∈ s2 self.table_name := Store.getItem_mem hx
      have : (Item.get it self.attribute_name).isSome = true := hall it hmem
      simp [Cond.holds, Option.isNone_iff_eq_none]
      intro h
      rw [h] at this
      cases this
  refine ⟨fun ht => ?_, fun ex c ht hg => ?_, fun ex ht hg => ?_⟩
  · exact ⟨_, history_next_no_tip self schema s item ht, rfl, rfl,
      get_tip_write_item self hwfk hwfi _⟩
  · exact ⟨_, _,
      history_next_with_counter self schema s item ex _ c ht hg rfl,
      rfl, rfl, get_tip_write_item self hwfk hwfi _, rfl, rfl,
      Item.get_of_pyGet_some hg, rfl, hbridge _ rfl rfl⟩
  · exact ⟨_, _, history_next_preversioning self schema s item ex ht hg,
      rfl, rfl, rfl, rfl, Item.get_setAttr_self _ _ _, rfl⟩

/-- Witness for C4: the tip-with-counter case at the history fixture,
with the tip `{widgetID: 1, version: 1}` and candidate
`{version: null}`. -/
theorem claim_C4_history_planner_witness :
    ∃ tip arch,
      DynamoDBHistoryAutoIncrement.next versionsCfg testSchema
          (fun t => if t = "widgets" then
            [[("widgetID", DDBValue.int 1), ("version", DDBValue.int 1)]]
            else []) [("version", DDBValue.null)] =
        some ([tip, arch], 1 + 1) ∧
      tip.table = versionsCfg.counter_table_name ∧
      tip.cond = Cond.attrEq versionsCfg.attribute_name (DDBValue.int 1) ∧
      (∀ k, Item.get tip.item k =
        if k = versionsCfg.attribute_name then some (DDBValue.int (1 + 1))
        else (Item.get versionsCfg.counter_table_key k).elim
          (Item.get [("version", DDBValue.null)] k) some) ∧
      arch.table = versionsCfg.table_name ∧
      arch.item = [("widgetID", DDBValue.int 1), ("version", DDBValue.int 1)] ∧
      Item.get [("widgetID", DDBValue.int 1), ("version", DDBValue.int 1)]
        versionsCfg.attribute_name = some (DDBValue.int 1) ∧
      arch.cond = Cond.attrNotExists versionsCfg.attribute_name ∧
      (∀ s2 : Store,
        (∀ it ∈ s2 versionsCfg.table_name,
          (Item.get it versionsCfg.attribute_name).isSome = true) →
        (condOk testSchema s2 arch = true ↔
          Store.getItem testSchema s2 versionsCfg.table_name
            [("widgetID", DDBValue.int 1), ("version", DDBValue.int 1)] =
            none)) :=
  (claim_C4_history_planner versionsCfg testSchema
    (fun t => if t = "widgets" then
      [[("widgetID", DDBValue.int 1), ("version", DDBValue.int 1)]] else [])
    [("version", DDBValue.null)] (by decide) (by decide)).2.1
    [("widgetID", DDBValue.int 1), ("version", DDBValue.int 1)] 1
    (by decide) (by decide)

/-- Claim C8: for every history counter state, `get` with no version
returns the current tip record (or absence when no tip exists), and
`get(k)` for a version `k` carried by no history record under the parent
key — including any `k` beyond the latest version, and the current tip's
own version when it has not yet been archived — returns absence. -/
theorem claim_C8_history_get (self : BaseDynamoDBAutoIncrement)
    (schema : Schema) (s : Store)
    (hwfk : Item.Wf self.counter_table_key)
    (hattr : self.attribute_name ∉ Item.attrNames self.counter_table_key)
    (hkeys : schema self.table_name =
      Item.attrNames self.counter_table_key ++ [self.attribute_name]) :
    DynamoDBHistoryAutoIncrement.get self schema s none =
      tipRead self schema s ∧
    (∀ k : Int,
      (∀ it ∈ s self.table_name,
        ¬(parentMatches self it = true ∧
          Item.get it self.attribute_name = some (DDBValue.int k))) →
      DynamoDBHistoryAutoIncrement.get self schema s (some k) = none) := by
  refine ⟨rfl, fun k h => ?_⟩
  unfold DynamoDBHistoryAutoIncrement.get Store.getItem
  rw [List.find?_eq_none]
  intro it hmem
  intro hsk
  apply h it hmem
  have hall := get_eq_of_sameKey hsk
  rw [hkeys] at hall
  constructor
  · unfold parentMatches
    rw [List.all_eq_true]
    intro kv hkv
    rw [decide_eq_true_eq]
    have hk : kv.1 ≠ self.attribute_name := by
      intro he
      exact hattr (he ▸ List.mem_map_of_mem Prod.fst hkv)
    have := hall kv.1 (by
      rw [List.mem_append]
      exact Or.inl (List.mem_map_of_mem Prod.fst hkv))
    rw [this, Item.get_setAttr_ne _ _ hk, Item.get_norm hwfk,
      Item.get_of_mem_wf hwfk hkv]
  · have := hall self.attribute_name (by simp)
    rw [this, Item.get_setAttr_self]

/-- Witness for C8: a store whose tip is at version 3 with only versions 1
and 2 archived; `get()` returns the tip, and `get(3)` (the tip's own,
not-yet-archived version) returns absence. -/
theorem claim_C8_history_get_witness :
    DynamoDBHistoryAutoIncrement.get versionsCfg testSchema
      (fun t =>
        if t = "widgets" then
          [[("widgetID", DDBValue.int 1), ("version", DDBValue.int 3)]]
        else if t = "widgetHistory" then
          [[("widgetID", DDBValue.int 1), ("version", DDBValue.int 1)],
           [("widgetID", DDBValue.int 1), ("version", DDBValue.int 2)]]
        else []) none =
      tipRead versionsCfg testSchema
        (fun t =>
          if t = "widgets" then
            [[("widgetID", DDBValue.int 1), ("version", DDBValue.int 3)]]
          else if t = "widgetHistory" then
            [[("widgetID", DDBValue.int 1), ("version", DDBValue.int 1)],
             [("widgetID", DDBValue.int 1), ("version", DDBValue.int 2)]]
          else []) ∧
    DynamoDBHistoryAutoIncrement.get versionsCfg testSchema
      (fun t =>
        if t = "widgets" then
          [[("widgetID", DDBValue.int 1), ("version", DDBValue.int 3)]]
        else if t = "widgetHistory" then
          [[("widgetID", DDBValue.int 1), ("version", DDBValue.int 1)],
           [("widgetID", DDBValue.int 1), ("version", DDBValue.int 2)]]
        else []) (some 3) = none :=
  have h := claim_C8_history_get versionsCfg testSchema
    (fun t =>
      if t = "widgets" then
        [[("widgetID", DDBValue.int 1), ("version", DDBValue.int 3)]]
      else if t = "widgetHistory" then
        [[("widgetID", DDBValue.int 1), ("version", DDBValue.int 1)],
         [("widgetID", DDBValue.int 1), ("version", DDBValue.int 2)]]
      else []) (by decide) (by decide) (by decide)
  ⟨h.1, h.2 3 (by decide)⟩

/-- The history tip write addresses exactly the counter record: reading
the store at the tip write's item finds the same record as reading at
`counter_table_key`. -/
theorem getItem_tip_write_key (self : BaseDynamoDBAutoIncrement)
    (schema : Schema) (s : Store) (item : Item)
    (hwfk : Item.Wf self.counter_table_key)
    (hattr : self.attribute_name ∉ Item.attrNames self.counter_table_key)
    (hcs : schema self.counter_table_name =
      Item.attrNames self.counter_table_key) (v : Int) :
    Store.getItem schema s self.counter_table_name
      (Item.setAttr (Item.mergeWith (Item.norm item) self.counter_table_key)
        self.attribute_name (DDBValue.int v)) = tipRead self schema s := by
  unfold tipRead
  apply Store.getItem_congr_key
  intro k hk
  rw [hcs] at hk
  have hne : k ≠ self.attribute_name := fun he => hattr (he ▸ hk)
  rw [Item.get_setAttr_ne _ _ hne, Item.get_mergeWith _ hwfk,
    Option.elim_some_isSome (get_isSome_of_mem_attrNames hk)]

/-- The plain counter write addresses exactly the counter record. -/
theorem getItem_counter_write_key (self : BaseDynamoDBAutoIncrement)
    (schema : Schema) (s : Store)
    (hwfk : Item.Wf self.counter_table_key)
    (hattr : self.attribute_name ∉ Item.attrNames self.counter_table_key)
    (hcs : schema self.counter_table_name =
      Item.attrNames self.counter_table_key) (v : Int) :
    Store.getItem schema s self.counter_table_name
      (Item.setAttr (Item.norm self.counter_table_key)
        self.attribute_name (DDBValue.int v)) = tipRead self schema s := by
  unfold tipRead
  apply Store.getItem_congr_key
  intro k hk
  rw [hcs] at hk
  have hne : k ≠ self.attribute_name := fun he => hattr (he ▸ hk)
  rw [Item.get_setAttr_ne _ _ hne, Item.get_norm hwfk]

/-- Claim C5: for a history counter whose tip exists but carries no
counter attribute (the pre-versioning migration case) with
`initialValue = 1`, `put` returns 2: the planner marks the pre-existing
tip content, now carrying the value `initialValue`, for archiving as
version 1, and plans the new tip write with
`nextValue = initialValue + 1`; afterwards `list()` returns `[1]`. -/
theorem claim_C5_preversioning_migration (self : BaseDynamoDBAutoIncrement)
    (schema : Schema) (s : Store) (item : Item) (T : Item)
    (rest : List (Store × Option String))
    (hwf : HistoryCfgWf self schema)
    (hinit : self.initial_value = 1)
    (htip : tipRead self schema s = some T)
    (hnoattr : Item.get T self.attribute_name = none)
    (hempty : s self.table_name = []) :
    ∃ tip arch s2,
      DynamoDBHistoryAutoIncrement.next self schema s item =
        some ([tip, arch], 2) ∧
      arch.item = Item.setAttr T self.attribute_name (DDBValue.int 1) ∧
      Item.get arch.item self.attribute_name = some (DDBValue.int 1) ∧
      transact_write_items schema s [tip, arch] = some s2 ∧
      BaseDynamoDBAutoIncrement.put
          (DynamoDBHistoryAutoIncrement.next self schema) schema item
          ((s, none) :: rest) = PutOutcome.done s2 2 ∧
      DynamoDBHistoryAutoIncrement.list self s2 = some [1] := by
  obtain ⟨hwfk, hcs, hts, hattr, hne⟩ := hwf
  have hpre := history_next_preversioning self schema s item T htip
    (Item.pyGet_of_get_none hnoattr)
  rw [hinit] at hpre
  norm_num at hpre
  set TIPIT : Item := Item.setAttr
    (Item.mergeWith (Item.norm item) self.counter_table_key)
    self.attribute_name (DDBValue.int 2) with hTIPIT
  set ARCH : Item := Item.setAttr T self.attribute_name (DDBValue.int 1)
    with hARCH
  have hcond1 : condOk schema s
      { table := self.counter_table_name, item := TIPIT,
        cond := Cond.attrNotExists self.attribute_name } = true := by
    unfold condOk
    show Cond.holds (Store.getItem schema s self.counter_table_name TIPIT) _ = true
    rw [hTIPIT, getItem_tip_write_key self schema s item hwfk hattr hcs 2, htip]
    simp [Cond.holds, hnoattr]
  have hcond2 : condOk schema s
      { table := self.table_name, item := ARCH,
        cond := Cond.attrNotExists self.attribute_name } = true := by
    unfold condOk
    show Cond.holds (Store.getItem schema s self.table_name ARCH) _ = true
    unfold Store.getItem
    rw [hempty]
    simp [Cond.holds]
  have htr : transact_write_items schema s
      [{ table := self.counter_table_name, item := TIPIT,
         cond := Cond.attrNotExists self.attribute_name },
       { table := self.table_name, item := ARCH,
         cond := Cond.attrNotExists self.attribute_name }] =
      some (Store.putItem schema
        (Store.putItem schema s self.counter_table_name TIPIT)
        self.table_name ARCH) := by
    unfold transact_write_items
    rw [if_pos]
    · rfl
    · simp [List.all_cons, hcond1, hcond2]
  have hget1 : Item.get ARCH self.attribute_name = some (DDBValue.int 1) := by
    rw [hARCH]
    exact Item.get_setAttr_self _ _ _
  refine ⟨_, _, _, hpre, rfl, hget1, htr, ?_, ?_⟩
  · simp [BaseDynamoDBAutoIncrement.put, hpre, htr]
  · -- list() over the committed store
    have hne2 : self.table_name ≠ self.counter_table_name := Ne.symm hne
    have hs1 : Store.putItem schema s self.counter_table_name TIPIT
        self.table_name = s self.table_name := by
      simp [Store.putItem, hne2]
    have hs2 : Store.putItem schema
        (Store.putItem schema s self.counter_table_name TIPIT)
        self.table_name ARCH self.table_name = [ARCH] := by
      simp [Store.putItem, hne2, hs1, hempty]
    have hmatch : parentMatches self ARCH = true := by
      unfold parentMatches
      rw [List.all_eq_true]
      intro kv hkv
      rw [decide_eq_true_eq]
      have hk : kv.1 ≠ self.attribute_name := by
        intro he
        exact hattr (he ▸ List.mem_map_of_mem Prod.fst hkv)
      have htip2 : Store.getItem schema s self.counter_table_name
          self.counter_table_key = some T := htip
      have hsk := get_eq_of_sameKey (Store.getItem_sameKey htip2)
      rw [hARCH, Item.get_setAttr_ne _ _ hk,
        hsk kv.1 (by rw [hcs]; exact List.mem_map_of_mem Prod.fst hkv),
        Item.get_of_mem_wf hwfk hkv]
    unfold DynamoDBHistoryAutoIncrement.list
    rw [hs2]
    have hfil : List.filter (parentMatches self) [ARCH] = [ARCH] := by
      simp [hmatch]
    rw [hfil]
    have hm : List.mapM (versionOf self) [ARCH] = some [1] := by
      simp [List.mapM, List.mapM.loop, versionOf, hget1]
    rw [hm]
    rfl

/-- Witness for C5: the pre-versioning tip `{widgetID: 1}` at the history
test fixture with `initialValue = 1` and an empty history table. -/
theorem claim_C5_preversioning_migration_witness :
    ∃ tip arch s2,
      DynamoDBHistoryAutoIncrement.next versionsCfg testSchema
          preVersioningStore [("name", DDBValue.str "Handy Widget")] =
        some ([tip, arch], 2) ∧
      arch.item = Item.setAttr [("widgetID", DDBValue.int 1)]
        versionsCfg.attribute_name (DDBValue.int 1) ∧
      Item.get arch.item versionsCfg.attribute_name =
        some (DDBValue.int 1) ∧
      transact_write_items testSchema preVersioningStore [tip, arch] =
        some s2 ∧
      BaseDynamoDBAutoIncrement.put
          (DynamoDBHistoryAutoIncrement.next versionsCfg testSchema)
          testSchema [("name", DDBValue.str "Handy Widget")]
          ((preVersioningStore, none) :: []) = PutOutcome.done s2 2 ∧
      DynamoDBHistoryAutoIncrement.list versionsCfg s2 = some [1] :=
  claim_C5_preversioning_migration versionsCfg testSchema preVersioningStore
    [("name", DDBValue.str "Handy Widget")] [("widgetID", DDBValue.int 1)] []
    (by refine ⟨by decide, by decide, by decide, by decide, by decide⟩)
    (by decide) (by decide) (by decide) (by decide)

/-- Counterexample to claim C6: a successful plain `put` whose stored
target record is not "the fields of c merged with the attribute name
mapped to v".  With candidate `{widgetID: 99}` against a fresh plain
counter, `put` succeeds and returns `v = 1`, but the target-table write
is `{attribute_name: next_counter, **item}` — the candidate's binding
wins — so the stored record is `{widgetID: 99}`, not the claimed
`{widgetID: 1}`. -/
theorem claim_C6_counterexample :
    (BaseDynamoDBAutoIncrement.put
        (DynamoDBAutoIncrement.next widgetsCfg testSchema) testSchema
        [("widgetID", DDBValue.int 99)] [(freshStore, none)]).value =
      some 1 ∧
    ((BaseDynamoDBAutoIncrement.put
        (DynamoDBAutoIncrement.next widgetsCfg testSchema) testSchema
        [("widgetID", DDBValue.int 99)] [(freshStore, none)]).finalStore.map
      (fun s2 => s2 "widgets")) = some [[("widgetID", DDBValue.int 99)]] ∧
    specMergedRecord [("widgetID", DDBValue.int 99)] "widgetID" 1 =
      [("widgetID", DDBValue.int 1)] ∧
    [[("widgetID", DDBValue.int 99)]] ≠
      [specMergedRecord [("widgetID", DDBValue.int 99)] "widgetID" 1] := by
  refine ⟨by decide, by decide, by decide, by decide⟩

/-- Claim C6 as amended: for every successful `put`, the record written to
the target (plain variant) is `{attributeName: v}` overridden by the
candidate's fields — equal to the candidate merged with
`{attributeName: v}` exactly when the candidate does not itself bind the
attribute name — and the record written to the tip (history variant) is
the candidate overridden by the counter key and `{attributeName: v}`;
in both variants the committed store re-read at the written record's key
returns exactly that record (and, reads being pure, every repeated
re-read returns the same record). -/
theorem claim_C6_amended_stored_record :
    (∀ (self : BaseDynamoDBAutoIncrement) (schema : Schema) (s : Store)
       (item : Item) (ps : List PlannedPut) (v : Int) (s2 : Store),
      Item.Wf item →
      DynamoDBAutoIncrement.next self schema s item = some (ps, v) →
      transact_write_items schema s ps = some s2 →
      ∃ p1 p2, ps = [p1, p2] ∧
        Store.getItem schema s2 self.table_name p2.item = some p2.item ∧
        (∀ k, Item.get p2.item k =
          (Item.get item k).elim
            (if k = self.attribute_name then some (DDBValue.int v) else none)
            some) ∧
        (Item.get item self.attribute_name = none →
          p2.item = Item.mergeWith
            [(self.attribute_name, DDBValue.int v)] item)) ∧
    (∀ (self : BaseDynamoDBAutoIncrement) (schema : Schema) (s : Store)
       (item : Item) (ps : List PlannedPut) (v : Int) (s2 : Store),
      HistoryCfgWf self schema → Item.Wf item →
      DynamoDBHistoryAutoIncrement.next self schema s item = some (ps, v) →
      transact_write_items schema s ps = some s2 →
      ∃ tip rest, ps = tip :: rest ∧
        Store.getItem schema s2 self.counter_table_name
          self.counter_table_key = some tip.item ∧
        (∀ k, Item.get tip.item k =
          if k = self.attribute_name then some (DDBValue.int v)
          else (Item.get self.counter_table_key k).elim
            (Item.get item k) some)) := by
  constructor
  · intro self schema s item ps v s2 hwfi hn htr
    rcases hb : nextAndCond self (counterPy self schema s) with _ | nc
    · rw [DynamoDBAutoIncrement.next, hb] at hn
      cases hn
    · rw [DynamoDBAutoIncrement.next, hb] at hn
      simp only [Option.map_some'] at hn
      have hps := congrArg Prod.fst (Option.some.inj hn)
      have hv := congrArg Prod.snd (Option.some.inj hn)
      simp only at hps hv
      subst hv
      refine ⟨_, _, hps.symm, ?_, ?_, ?_⟩
      · rw [← hps] at htr
        unfold transact_write_items at htr
        split at htr
        · have hfold := Option.some.inj htr
          rw [← hfold]
          exact Store.getItem_putItem_self schema _ _ _ _ (sameKey_refl _ _)
        · cases htr
      · intro k
        rw [Item.get_mergeWith _ hwfi]
        by_cases h : k = self.attribute_name <;> simp [Item.get, h]
      · intro hnone
        rfl
  · intro self schema s item ps v s2 hwf hwfi hn htr
    obtain ⟨hwfk, hcs, hts, hattr, hne⟩ := hwf
    have hsk : sameKey (schema self.counter_table_name)
        (Item.setAttr (Item.mergeWith (Item.norm item) self.counter_table_key)
          self.attribute_name (DDBValue.int v)) self.counter_table_key =
        true := by
      apply sameKey_of_get_eq
      intro k hk
      rw [hcs] at hk
      have hkne : k ≠ self.attribute_name := fun he => hattr (he ▸ hk)
      rw [Item.get_setAttr_ne _ _ hkne, Item.get_mergeWith _ hwfk,
        Option.elim_some_isSome (get_isSome_of_mem_attrNames hk)]
    have hchar : ∀ k, Item.get
        (Item.setAttr (Item.mergeWith (Item.norm item) self.counter_table_key)
          self.attribute_name (DDBValue.int v)) k =
        if k = self.attribute_name then some (DDBValue.int v)
        else (Item.get self.counter_table_key k).elim (Item.get item k) some :=
      get_tip_write_item self hwfk hwfi v
    rcases ht : tipRead self schema s with _ | ex
    · rw [history_next_no_tip self schema s item ht] at hn
      have hps := congrArg Prod.fst (Option.some.inj hn)
      have hv := congrArg Prod.snd (Option.some.inj hn)
      simp only at hps hv
      subst hv
      rw [← hps] at htr
      unfold transact_write_items at htr
      split at htr
      · have hfold := Option.some.inj htr
        refine ⟨_, _, hps.symm, ?_, hchar⟩
        rw [← hfold]
        show Store.getItem schema
          (Store.putItem schema s self.counter_table_name _)
          self.counter_table_name self.counter_table_key = _
        unfold Store.getItem Store.putItem
        simp only [if_pos rfl, List.find?, hsk]
      · cases htr
    · rcases hg : Item.pyGet ex self.attribute_name with _ | w
      · rw [history_next_preversioning self schema s item ex ht hg] at hn
        have hps := congrArg Prod.fst (Option.some.inj hn)
        have hv := congrArg Prod.snd (Option.some.inj hn)
        simp only at hps hv
        subst hv
        rw [← hps] at htr
        unfold transact_write_items at htr
        split at htr
        · have hfold := Option.some.inj htr
          refine ⟨_, _, hps.symm, ?_, hchar⟩
          rw [← hfold]
          simp only [List.foldl]
          rw [Store.getItem_putItem_other schema _ _ _ hne]
          unfold Store.getItem Store.putItem
          simp only [if_pos rfl, List.find?, hsk]
        · cases htr
      · rcases hw : w.asPyNumber with _ | c
        · exfalso
          rw [DynamoDBHistoryAutoIncrement.next] at hn
          simp [counterPy, ht, hg, nextAndCond, hw] at hn
        · rw [history_next_with_counter self schema s item ex w c ht hg hw]
            at hn
          have hps := congrArg Prod.fst (Option.some.inj hn)
          have hv := congrArg Prod.snd (Option.some.inj hn)
          simp only at hps hv
          subst hv
          rw [← hps] at htr
          unfold transact_write_items at htr
          split at htr
          · have hfold := Option.some.inj htr
            refine ⟨_, _, hps.symm, ?_, hchar⟩
            rw [← hfold]
            simp only [List.foldl]
            rw [Store.getItem_putItem_other schema _ _ _ hne]
            unfold Store.getItem Store.putItem
            simp only [if_pos rfl, List.find?, hsk]
          · cases htr

/-- Witness for the amended C6: a plain `put` of
`{widgetName: "runcible spoon"}` against the fresh fixture and a history
`put` against the pre-versioning fixture, each committed by one
successful transaction. -/
theorem claim_C6_amended_stored_record_witness :
    (∃ p1 p2, plainSpoonPlan = [p1, p2] ∧
      Store.getItem testSchema plainSpoonStore widgetsCfg.table_name
        p2.item = some p2.item ∧
      (∀ k, Item.get p2.item k =
        (Item.get [("widgetName", DDBValue.str "runcible spoon")] k).elim
          (if k = widgetsCfg.attribute_name then some (DDBValue.int 1)
           else none) some) ∧
      (Item.get [("widgetName", DDBValue.str "runcible spoon")]
          widgetsCfg.attribute_name = none →
        p2.item = Item.mergeWith
          [(widgetsCfg.attribute_name, DDBValue.int 1)]
          [("widgetName", DDBValue.str "runcible spoon")])) ∧
    (∃ tip rest, histPrePlan = tip :: rest ∧
      Store.getItem testSchema histPreStore versionsCfg.counter_table_name
        versionsCfg.counter_table_key = some tip.item ∧
      (∀ k, Item.get tip.item k =
        if k = versionsCfg.attribute_name then some (DDBValue.int 2)
        else (Item.get versionsCfg.counter_table_key k).elim
          (Item.get [("name", DDBValue.str "x")] k) some)) :=
  ⟨claim_C6_amended_stored_record.1 widgetsCfg testSchema freshStore
      [("widgetName", DDBValue.str "runcible spoon")] plainSpoonPlan 1
      plainSpoonStore (by decide) (by decide) rfl,
   claim_C6_amended_stored_record.2 versionsCfg testSchema preVersioningStore
      [("name", DDBValue.str "x")] histPrePlan 2 histPreStore
      (by refine ⟨by decide, by decide, by decide, by decide, by decide⟩)
      (by decide) (by decide) rfl⟩

theorem versionOf_eq_some_iff (self : BaseDynamoDBAutoIncrement)
    (it : Item) (n : Int) :
    versionOf self it = some n ↔
      Item.get it self.attribute_name = some (DDBValue.int n) := by
  unfold versionOf
  rcases hg : Item.get it self.attribute_name with _ | v
  · simp
  · cases v <;> simp

theorem versionOf_isSome_of_isIntAttr {self : BaseDynamoDBAutoIncrement}
    {it : Item} (h : isIntAttr it self.attribute_name = true) :
    (versionOf self it).isSome = true := by
  unfold isIntAttr at h
  unfold versionOf
  rcases hg : Item.get it self.attribute_name with _ | v
  · rw [hg] at h
    cases h
  · rw [hg] at h
    cases v <;> simp_all

theorem mapM_option_spec {α β : Type} (f : α → Option β) :
    ∀ {l : List α}, (∀ x ∈ l, (f x).isSome = true) →
      ∃ ys, l.mapM f = some ys ∧
        List.Forall₂ (fun x y => f x = some y) l ys := by
  intro l
  induction l with
  | nil => exact fun _ => ⟨[], rfl, List.Forall₂.nil⟩
  | cons a as ih =>
    intro h
    obtain ⟨ys, hys, hf⟩ := ih (fun x hx => h x (by simp [hx]))
    rcases ha : f a with _ | b
    · have hcontra := h a (by simp)
      rw [ha] at hcontra
      simp at hcontra
    · exact ⟨b :: ys, by rw [List.mapM_cons, ha, hys]; rfl,
        List.Forall₂.cons ha hf⟩

theorem mem_iff_of_mapM_forall2 {α β : Type} {f : α → Option β}
    {l : List α} {ys : List β}
    (hf : List.Forall₂ (fun x y => f x = some y) l ys) (y : β) :
    y ∈ ys ↔ ∃ x ∈ l, f x = some y := by
  induction hf with
  | nil => simp
  | cons hxy hrest ih =>
    rename_i x0 y0 l0 ys0
    simp only [List.mem_cons, ih]
    constructor
    · rintro (rfl | ⟨x, hx, hfx⟩)
      · exact ⟨x0, by simp, hxy⟩
      · exact ⟨x, by simp [hx], hfx⟩
    · rintro ⟨x, hx, hfx⟩
      rcases hx with rfl | hx2
      · exact Or.inl (Option.some.inj (hxy.symm.trans hfx)).symm
      · exact Or.inr ⟨x, hx2, hfx⟩

theorem pairwise_of_mapM_forall2 {α β : Type} {f : α → Option β}
    {P : α → α → Prop} {Q : β → β → Prop} :
    ∀ {l : List α} {ys : List β},
      List.Forall₂ (fun x y => f x = some y) l ys →
      l.Pairwise P →
      (∀ x y x2 y2, f x = some y → f x2 = some y2 → P x x2 → Q y y2) →
      ys.Pairwise Q := by
  intro l ys hf
  induction hf with
  | nil => intro _ _; exact List.Pairwise.nil
  | cons hxy hrest ih =>
    rename_i x0 y0 l0 ys0
    intro hp himp
    rcases List.pairwise_cons.mp hp with ⟨hx0, hp0⟩
    refine List.pairwise_cons.mpr ⟨?_, ih hp0 himp⟩
    intro b hb
    obtain ⟨x, hx, hfx⟩ := (mem_iff_of_mapM_forall2 hrest b).mp hb
    exact himp x0 y0 x b hxy hfx (hx0 x hx)

/-- Claim C9: for every history counter state, `list()` returns a strictly
ascending sequence of version numbers with no duplicates, equal to the
numerically sorted set of all versions committed to the history table
under the parent key (the history table holding at most one record per
key, and every record under the parent key a numeric version). -/
theorem claim_C9_list_strictly_ascending (self : BaseDynamoDBAutoIncrement)
    (schema : Schema) (s : Store)
    (hts : schema self.table_name =
      Item.attrNames self.counter_table_key ++ [self.attribute_name])
    (hdistinct : (s self.table_name).Pairwise
      (fun a b => sameKey (schema self.table_name) a b = false))
    (hnum : ∀ it ∈ s self.table_name, parentMatches self it = true →
      isIntAttr it self.attribute_name = true) :
    ∃ l, DynamoDBHistoryAutoIncrement.list self s = some l ∧
      l.Sorted (· < ·) ∧
      (∀ n : Int, n ∈ l ↔ ∃ it ∈ s self.table_name,
        parentMatches self it = true ∧
        Item.get it self.attribute_name = some (DDBValue.int n)) := by
  set M := (s self.table_name).filter (parentMatches self) with hM
  have hMmem : ∀ it ∈ M, it ∈ s self.table_name ∧
      parentMatches self it = true := by
    intro it hit
    rw [hM, List.mem_filter] at hit
    exact hit
  have hsome : ∀ it ∈ M, (versionOf self it).isSome = true := by
    intro it hit
    obtain ⟨h1, h2⟩ := hMmem it hit
    exact versionOf_isSome_of_isIntAttr (hnum it h1 h2)
  obtain ⟨vals, hvals, hf2⟩ := mapM_option_spec (versionOf self) hsome
  have hMp : M.Pairwise (fun a b =>
      sameKey (schema self.table_name) a b = false ∧
      parentMatches self a = true ∧ parentMatches self b = true) := by
    have hsub : M.Pairwise
        (fun a b => sameKey (schema self.table_name) a b = false) :=
      hdistinct.sublist (List.filter_sublist _)
    exact hsub.imp_of_mem (fun ha hb hr =>
      ⟨hr, (hMmem _ ha).2, (hMmem _ hb).2⟩)
  have hinj : ∀ x y x2 y2, versionOf self x = some y →
      versionOf self x2 = some y2 →
      (sameKey (schema self.table_name) x x2 = false ∧
        parentMatches self x = true ∧ parentMatches self x2 = true) →
      y ≠ y2 := by
    rintro x y x2 y2 hx hx2 ⟨hsk, hpx, hpx2⟩ he
    subst he
    have hgx := (versionOf_eq_some_iff self x y).mp hx
    have hgx2 := (versionOf_eq_some_iff self x2 y).mp hx2
    have : sameKey (schema self.table_name) x x2 = true := by
      apply sameKey_of_get_eq
      intro k hk
      rw [hts] at hk
      rcases List.mem_append.mp hk with hk1 | hk2
      · obtain ⟨⟨k0, w⟩, hmem, hkeq⟩ := List.mem_map.mp hk1
        simp only at hkeq
        subst hkeq
        unfold parentMatches at hpx hpx2
        rw [List.all_eq_true] at hpx hpx2
        have e1 := hpx (k0, w) hmem
        have e2 := hpx2 (k0, w) hmem
        rw [decide_eq_true_eq] at e1 e2
        rw [e1, e2]
      · rw [List.mem_singleton] at hk2
        subst hk2
        rw [hgx, hgx2]
    rw [this] at hsk
    cases hsk
  have hnodup : vals.Nodup :=
    pairwise_of_mapM_forall2 hf2 hMp hinj
  refine ⟨List.insertionSort (· ≤ ·) vals, ?_, ?_, ?_⟩
  · unfold DynamoDBHistoryAutoIncrement.list
    rw [← hM, hvals]
    rfl
  · have hsorted : (List.insertionSort (· ≤ ·) vals).Sorted (· ≤ ·) :=
      List.sorted_insertionSort _ vals
    have hnd : (List.insertionSort (· ≤ ·) vals).Nodup :=
      ((List.perm_insertionSort (· ≤ ·) vals).nodup_iff).mpr hnodup
    exact (hsorted.and hnd).imp (fun h => lt_of_le_of_ne h.1 h.2)
  · intro n
    rw [(List.perm_insertionSort (· ≤ ·) vals).mem_iff,
      mem_iff_of_mapM_forall2 hf2 n]
    constructor
    · rintro ⟨it, hit, hv⟩
      obtain ⟨h1, h2⟩ := hMmem it hit
      exact ⟨it, h1, h2, (versionOf_eq_some_iff self it n).mp hv⟩
    · rintro ⟨it, h1, h2, hg⟩
      exact ⟨it, by rw [hM, List.mem_filter]; exact ⟨h1, h2⟩,
        (versionOf_eq_some_iff self it n).mpr hg⟩

/-- Witness for C9: a history table holding versions 3, 1 and 2 under the
parent key (plus a record of another parent); `list()` returns `[1, 2, 3]`. -/
theorem claim_C9_list_strictly_ascending_witness :
    ∃ l, DynamoDBHistoryAutoIncrement.list versionsCfg
        (fun t =>
          if t = "widgetHistory" then
            [[("widgetID", DDBValue.int 1), ("version", DDBValue.int 3)],
             [("widgetID", DDBValue.int 2), ("version", DDBValue.int 7)],
             [("widgetID", DDBValue.int 1), ("version", DDBValue.int 1)],
             [("widgetID", DDBValue.int 1), ("version", DDBValue.int 2)]]
          else []) = some l ∧
      l.Sorted (· < ·) ∧
      (∀ n : Int, n ∈ l ↔ ∃ it ∈ (fun t =>
          if t = "widgetHistory" then
            [[("widgetID", DDBValue.int 1), ("version", DDBValue.int 3)],
             [("widgetID", DDBValue.int 2), ("version", DDBValue.int 7)],
             [("widgetID", DDBValue.int 1), ("version", DDBValue.int 1)],
             [("widgetID", DDBValue.int 1), ("version", DDBValue.int 2)]]
          else []) versionsCfg.table_name,
        parentMatches versionsCfg it = true ∧
        Item.get it versionsCfg.attribute_name = some (DDBValue.int n)) :=
  claim_C9_list_strictly_ascending versionsCfg testSchema
    (fun t =>
      if t = "widgetHistory" then
        [[("widgetID", DDBValue.int 1), ("version", DDBValue.int 3)],
         [("widgetID", DDBValue.int 2), ("version", DDBValue.int 7)],
         [("widgetID", DDBValue.int 1), ("version", DDBValue.int 1)],
         [("widgetID", DDBValue.int 1), ("version", DDBValue.int 2)]]
      else [])
    (by decide) (by decide) (by decide)

theorem plain_next_shape (self : BaseDynamoDBAutoIncrement)
    (schema : Schema) (s : Store) (item : Item) (ps : List PlannedPut)
    (v : Int)
    (hn : DynamoDBAutoIncrement.next self schema s item = some (ps, v)) :
    PlanShape self ps v := by
  rcases hc : counterPy self schema s with _ | w
  · rw [DynamoDBAutoIncrement.next, hc] at hn
    simp only [nextAndCond, Option.map_some'] at hn
    have hps := congrArg Prod.fst (Option.some.inj hn)
    have hv := congrArg Prod.snd (Option.some.inj hn)
    simp only at hps hv
    subst hv
    exact ⟨_, _, hps.symm, rfl, Or.inl ⟨rfl, rfl⟩⟩
  · rcases hw : w.asPyNumber with _ | m
    · rw [DynamoDBAutoIncrement.next, hc] at hn
      simp [nextAndCond, hw] at hn
    · rw [DynamoDBAutoIncrement.next, hc] at hn
      simp only [nextAndCond, hw, Option.map_some'] at hn
      have hps := congrArg Prod.fst (Option.some.inj hn)
      have hv := congrArg Prod.snd (Option.some.inj hn)
      simp only at hps hv
      subst hv
      exact ⟨_, _, hps.symm, rfl, Or.inr ⟨w, rfl, m, hw, rfl⟩⟩

/-- The counter write of a plan addresses the counter record. -/
theorem sameKey_counter_write (self : BaseDynamoDBAutoIncrement)
    (schema : Schema)
    (hwfk : Item.Wf self.counter_table_key)
    (hattr : self.attribute_name ∉ Item.attrNames self.counter_table_key)
    (hcs : schema self.counter_table_name =
      Item.attrNames self.counter_table_key) (v : Int) :
    sameKey (schema self.counter_table_name)
      (Item.setAttr (Item.norm self.counter_table_key)
        self.attribute_name (DDBValue.int v))
      self.counter_table_key = true := by
  apply sameKey_of_get_eq
  intro k hk
  rw [hcs] at hk
  have hne : k ≠ self.attribute_name := fun he => hattr (he ▸ hk)
  rw [Item.get_setAttr_ne _ _ hne, Item.get_norm hwfk]

theorem C1Inv_init (self : BaseDynamoDBAutoIncrement) (schema : Schema)
    (N : Nat) : C1Inv self schema (initState N) := by
  refine ⟨0, rfl, ?_, ?_, ?_⟩
  · intro v
    constructor
    · rintro ⟨i, h⟩
      exact absurd h (by simp [initState])
    · rintro ⟨h1, h2⟩
      omega
  · intro i j v w hi
    exact absurd hi (by simp [initState])
  · intro i ps v hi
    exact absurd hi (by simp [initState])

theorem C1Inv_step (self : BaseDynamoDBAutoIncrement) (schema : Schema)
    {N : Nat} (cand : Fin N → Item) {σ σ2 : SysState N}
    (hwf : PlainCfgWf self schema)
    (hstep : SysStep self schema cand σ σ2)
    (hinv : C1Inv self schema σ) : C1Inv self schema σ2 := by
  obtain ⟨hwfk, hcs, hts, hattr, hne⟩ := hwf
  obtain ⟨k, hA, hB, hC, hD⟩ := hinv
  cases hstep with
  | plan i ps v hidle hnext =>
    refine ⟨k, hA, ?_, ?_, ?_⟩
    · intro v'
      rw [← hB v']
      constructor
      · rintro ⟨i', h⟩
        by_cases hii : i' = i
        · subst hii
          dsimp only at h
          rw [Function.update_same] at h
          exact absurd h (by simp)
        · dsimp only at h
          rw [Function.update_noteq hii] at h
          exact ⟨i', h⟩
      · rintro ⟨i', h⟩
        by_cases hii : i' = i
        · rw [hii, hidle] at h
          exact absurd h (by simp)
        · exact ⟨i', by dsimp only; rw [Function.update_noteq hii]; exact h⟩
    · intro i' j' v' w' hi hj hij
      by_cases hii : i' = i
      · subst hii
        dsimp only at hi
        rw [Function.update_same] at hi
        exact absurd hi (by simp)
      · by_cases hjj : j' = i
        · subst hjj
          dsimp only at hj
          rw [Function.update_same] at hj
          exact absurd hj (by simp)
        · dsimp only at hi
          rw [Function.update_noteq hii] at hi
          dsimp only at hj
          rw [Function.update_noteq hjj] at hj
          exact hC i' j' v' w' hi hj hij
    · intro i' ps' v' hi
      by_cases hii : i' = i
      · subst hii
        dsimp only at hi
        rw [Function.update_same] at hi
        obtain ⟨h1, h2⟩ := ClientState.planned.inj hi
        subst h1
        subst h2
        exact plain_next_shape self schema σ.store (cand i') ps v hnext
      · dsimp only at hi
        rw [Function.update_noteq hii] at hi
        exact hD i' ps' v' hi
  | conflict i ps v hpl htr =>
    refine ⟨k, hA, ?_, ?_, ?_⟩
    · intro v'
      rw [← hB v']
      constructor
      · rintro ⟨i', h⟩
        by_cases hii : i' = i
        · subst hii
          dsimp only at h
          rw [Function.update_same] at h
          exact absurd h (by simp)
        · dsimp only at h
          rw [Function.update_noteq hii] at h
          exact ⟨i', h⟩
      · rintro ⟨i', h⟩
        by_cases hii : i' = i
        · rw [hii, hpl] at h
          exact absurd h (by simp)
        · exact ⟨i', by dsimp only; rw [Function.update_noteq hii]; exact h⟩
    · intro i' j' v' w' hi hj hij
      by_cases hii : i' = i
      · subst hii
        dsimp only at hi
        rw [Function.update_same] at hi
        exact absurd hi (by simp)
      · by_cases hjj : j' = i
        · subst hjj
          dsimp only at hj
          rw [Function.update_same] at hj
          exact absurd hj (by simp)
        · dsimp only at hi
          rw [Function.update_noteq hii] at hi
          dsimp only at hj
          rw [Function.update_noteq hjj] at hj
          exact hC i' j' v' w' hi hj hij
    · intro i' ps' v' hi
      by_cases hii : i' = i
      · subst hii
        dsimp only at hi
        rw [Function.update_same] at hi
        exact absurd hi (by simp)
      · dsimp only at hi
        rw [Function.update_noteq hii] at hi
        exact hD i' ps' v' hi
  | commit i ps v s2 hpl htr =>
    obtain ⟨c2, p2, hps, hp2t, hdis⟩ := hD i ps v hpl
    subst hps
    unfold transact_write_items at htr
    split at htr
    case isFalse => cases htr
    case isTrue hall =>
    have hfold := Option.some.inj htr
    rw [List.all_cons, Bool.and_eq_true] at hall
    have hcond1 := hall.1
    unfold condOk at hcond1
    simp only at hcond1
    rw [getItem_counter_write_key self schema σ.store hwfk hattr hcs v]
      at hcond1
    -- the committed value is exactly initial_value + k
    have hv : v = self.initial_value + k := by
      rcases hdis with ⟨hc2, hvinit⟩ | ⟨w, hc2, m, hwm, hvm⟩
      · subst hc2
        have hraw : rawCounter self schema σ.store = none := by
          unfold rawCounter
          rcases h3 : tipRead self schema σ.store with _ | it
          · rfl
          · rw [h3] at hcond1
            simp only [Cond.holds] at hcond1
            rw [Option.isNone_iff_eq_none] at hcond1
            simp [hcond1]
        cases k with
        | zero => simpa using hvinit
        | succ m2 =>
          rw [hraw] at hA
          cases hA
      · subst hc2
        cases k with
        | zero =>
          rcases h3 : tipRead self schema σ.store with _ | it
          · rw [h3] at hcond1
            simp [Cond.holds] at hcond1
          · rw [h3] at hcond1
            simp only [Cond.holds, decide_eq_true_eq] at hcond1
            have : rawCounter self schema σ.store = some w := by
              unfold rawCounter
              rw [h3]
              simp [hcond1]
            rw [this] at hA
            cases hA
        | succ m2 =>
          rcases h3 : tipRead self schema σ.store with _ | it
          · rw [h3] at hcond1
            simp [Cond.holds] at hcond1
          · rw [h3] at hcond1
            simp only [Cond.holds, decide_eq_true_eq] at hcond1
            have hw2 : rawCounter self schema σ.store = some w := by
              unfold rawCounter
              rw [h3]
              simp [hcond1]
            rw [hw2] at hA
            have hweq := Option.some.inj hA
            rw [hweq] at hwm
            simp only [DDBValue.asPyNumber] at hwm
            have hm := Option.some.inj hwm
            rw [hvm, ← hm]
            push_cast
            ring
    -- the committed store carries the counter value v
    have hraw2 : rawCounter self schema s2 = some (DDBValue.int v) := by
      rw [← hfold]
      simp only [List.foldl]
      unfold rawCounter tipRead
      rw [hp2t,
        Store.getItem_putItem_other schema _ _ _ hne,
        Store.getItem_putItem_self schema _ _ _ _
          (sameKey_counter_write self schema hwfk hattr hcs v)]
      simp [Item.get_setAttr_self]
    refine ⟨k + 1, ?_, ?_, ?_, ?_⟩
    · show rawCounter self schema s2 = _
      rw [hraw2, hv]
    · intro v'
      constructor
      · rintro ⟨i', h⟩
        by_cases hii : i' = i
        · subst hii
          dsimp only at h
          rw [Function.update_same] at h
          have := ClientState.done.inj h
          subst this
          constructor
          · omega
          · push_cast
            omega
        · dsimp only at h
          rw [Function.update_noteq hii] at h
          have := (hB v').mp ⟨i', h⟩
          push_cast
          push_cast at this
          omega
      · rintro ⟨h1, h2⟩
        by_cases hveq : v' = v
        · exact ⟨i, by dsimp only; rw [Function.update_same, hveq]⟩
        · have hlt : v' < self.initial_value + k := by
            push_cast at h2
            omega
          obtain ⟨i', hi'⟩ := (hB v').mpr ⟨h1, hlt⟩
          have hii : i' ≠ i := by
            intro he
            rw [he, hpl] at hi'
            exact absurd hi' (by simp)
          exact ⟨i', by dsimp only; rw [Function.update_noteq hii]; exact hi'⟩
    · intro i' j' v' w' hi hj hij
      by_cases hii : i' = i
      · subst hii
        dsimp only at hi
        rw [Function.update_same] at hi
        have hvv := ClientState.done.inj hi
        subst hvv
        have hjj : j' ≠ i' := fun he => hij he.symm
        dsimp only at hj
        rw [Function.update_noteq hjj] at hj
        have := (hB w').mp ⟨j', hj⟩
        intro he
        rw [← he] at this
        omega
      · by_cases hjj : j' = i
        · subst hjj
          dsimp only at hj
          rw [Function.update_same] at hj
          have hvv := ClientState.done.inj hj
          subst hvv
          dsimp only at hi
          rw [Function.update_noteq hii] at hi
          have := (hB v').mp ⟨i', hi⟩
          intro he
          rw [he] at this
          omega
        · dsimp only at hi
          rw [Function.update_noteq hii] at hi
          dsimp only at hj
          rw [Function.update_noteq hjj] at hj
          exact hC i' j' v' w' hi hj hij
    · intro i' ps' v' hi
      by_cases hii : i' = i
      · subst hii
        dsimp only at hi
        rw [Function.update_same] at hi
        exact absurd hi (by simp)
      · dsimp only at hi
        rw [Function.update_noteq hii] at hi
        exact hD i' ps' v' hi

/-- Claim C1: for every `N` and every interleaving of `N` concurrent `put`
calls that all succeed against a fresh plain counter configured with
initial value `v0` (safe mode), the set of values returned by the `N`
calls is exactly `{v0, v0+1, ..., v0+N-1}`: no value is returned by two
calls and no value in that range is skipped, regardless of completion
order. -/
theorem claim_C1_concurrent_puts_exact_range
    (self : BaseDynamoDBAutoIncrement) (schema : Schema) {N : Nat}
    (cand : Fin N → Item) (σ : SysState N)
    (hwf : PlainCfgWf self schema)
    (hreach : Relation.ReflTransGen (SysStep self schema cand)
      (initState N) σ)
    (hdone : ∀ i, ∃ v, σ.clients i = ClientState.done v) :
    (∀ v : Int, (∃ i, σ.clients i = ClientState.done v) ↔
      (self.initial_value ≤ v ∧ v < self.initial_value + N)) ∧
    (∀ i j : Fin N, ∀ v : Int, σ.clients i = ClientState.done v →
      σ.clients j = ClientState.done v → i = j) := by
  have hinv : C1Inv self schema σ := by
    clear hdone
    induction hreach with
    | refl => exact C1Inv_init self schema N
    | tail hsteps hstep ih => exact C1Inv_step self schema cand hwf hstep ih
  obtain ⟨k, hA, hB, hC, hD⟩ := hinv
  have huniq : ∀ i j : Fin N, ∀ v : Int, σ.clients i = ClientState.done v →
      σ.clients j = ClientState.done v → i = j := by
    intro i j v hi hj
    by_contra hij
    exact hC i j v v hi hj hij rfl
  classical
  choose f hf using hdone
  have hcard : (Finset.Ico self.initial_value
      (self.initial_value + (k : Int))).card = k := by
    rw [Int.card_Ico]
    omega
  have hK : k = N := by
    have h1 : (Finset.univ : Finset (Fin N)).card ≤
        (Finset.Ico self.initial_value
          (self.initial_value + (k : Int))).card := by
      apply Finset.card_le_card_of_injOn f
      · intro i _
        rw [Finset.mem_Ico]
        exact (hB (f i)).mp ⟨i, hf i⟩
      · intro i _ j _ hfij
        exact huniq i j (f i) (hf i) (by rw [hfij]; exact hf j)
    rcases Nat.eq_zero_or_pos N with h0 | hpos
    · subst h0
      by_contra hk0
      have hex : ∃ i : Fin 0, σ.clients i = ClientState.done
          self.initial_value := by
        refine (hB self.initial_value).mpr ⟨le_refl _, ?_⟩
        have : 1 ≤ k := Nat.one_le_iff_ne_zero.mpr hk0
        omega
      obtain ⟨i, _⟩ := hex
      exact absurd i.isLt (Nat.not_lt_zero _)
    · have hNE : Nonempty (Fin N) := ⟨⟨0, hpos⟩⟩
      have h2 : (Finset.Ico self.initial_value
          (self.initial_value + (k : Int))).card ≤
          (Finset.univ : Finset (Fin N)).card := by
        apply Finset.card_le_card_of_injOn
          (fun v => if h : ∃ i, σ.clients i = ClientState.done v
            then h.choose else Classical.arbitrary (Fin N))
        · intro v _
          exact Finset.mem_univ _
        · intro v1 hv1 v2 hv2 hg
          rw [Finset.coe_Ico, Set.mem_Ico] at hv1 hv2
          have he1 : ∃ i, σ.clients i = ClientState.done v1 :=
            (hB v1).mpr hv1
          have he2 : ∃ i, σ.clients i = ClientState.done v2 :=
            (hB v2).mpr hv2
          dsimp only at hg
          rw [dif_pos he1, dif_pos he2] at hg
          have hs1 := he1.choose_spec
          have hs2 := he2.choose_spec
          rw [hg] at hs1
          rw [hs1] at hs2
          exact ClientState.done.inj hs2
      rw [Finset.card_univ, Fintype.card_fin] at h1 h2
      omega
  subst hK
  exact ⟨hB, huniq⟩

/-- Witness for C1: a complete run of one caller (`N = 1`) against the
fresh test fixture — plan, then commit — after which the set of returned
values is exactly `{1}` and no two callers share a value. -/
theorem claim_C1_concurrent_puts_exact_range_witness :
    (∀ v : Int, (∃ i : Fin 1, c1FinalState.clients i = ClientState.done v) ↔
      (widgetsCfg.initial_value ≤ v ∧
        v < widgetsCfg.initial_value + (1 : Nat))) ∧
    (∀ i j : Fin 1, ∀ v : Int,
      c1FinalState.clients i = ClientState.done v →
      c1FinalState.clients j = ClientState.done v → i = j) :=
  claim_C1_concurrent_puts_exact_range widgetsCfg testSchema
    (fun _ => []) c1FinalState
    (by refine ⟨by decide, by decide, by decide, by decide, by decide⟩)
    (Relation.ReflTransGen.tail
      (Relation.ReflTransGen.tail Relation.ReflTransGen.refl
        (SysStep.plan (initState 1) 0 freshPlanPuts 1 rfl (by decide)))
      (SysStep.commit
        ⟨freshStore,
         Function.update (fun _ => ClientState.idle) 0
           (ClientState.planned freshPlanPuts 1)⟩
        0 freshPlanPuts 1 c1CommittedStore rfl rfl))
    (fun i => ⟨1, by fin_cases i; rfl⟩)

